import Mathlib

/-!
# Verification of the SozoGraph canonicalization-and-resolution pipeline

Shallow embedding of the `sozograph` Python package (resolver, renderer,
extractor validation, ingest coalescer, interaction truncation) together
with proofs and refutations of the specification claims.

Python values are modelled as follows:
* `str`    → `String` (Python `str.lower` / whitespace sets modelled on ASCII);
* `float`/`int` used for timestamps and confidences → `Rat`
  (exact rationals; IEEE rounding is abstracted away);
* JSON payloads → the inductive `JVal`;
* `datetime` → `DT`, a timestamp (seconds since epoch, `Rat`) plus its
  ISO rendering (carried opaquely as a `String`);
* `dict` used as an index → association list with Python dict semantics
  (insertion order kept, update-in-place, later build wins);
* raising code → `Except PyErr`.
-/

namespace Sozo

/-! ## Python string primitives -/

/-- ASCII whitespace recognised by Python's `str.strip()` (Unicode
whitespace beyond ASCII is not modelled). -/
def pyIsSpace (c : Char) : Bool :=
  c.toNat = 32 || c.toNat = 9 || c.toNat = 10 || c.toNat = 13 ||
    c.toNat = 11 || c.toNat = 12

/-- ASCII model of Python's `str.lower()` applied to one character. -/
def pyToLower (c : Char) : Char :=
  if 65 ≤ c.toNat ∧ c.toNat ≤ 90 then Char.ofNat (c.toNat + 32) else c

/-- Python `s.strip()`: drop leading and trailing whitespace. -/
def pyStripL (l : List Char) : List Char :=
  (((l.dropWhile pyIsSpace).reverse.dropWhile pyIsSpace)).reverse

def pyStrip (s : String) : String := ⟨pyStripL s.data⟩

/-- Python `s.lower()` (ASCII model). -/
def pyLower (s : String) : String := ⟨s.data.map pyToLower⟩

/-- Python `s1 < s2`: lexicographic comparison on code points. -/
def strLt (a b : String) : Bool :=
  go a.data b.data
where
  go : List Char → List Char → Bool
    | [], [] => false
    | [], _ :: _ => true
    | _ :: _, [] => false
    | x :: xs, y :: ys =>
      if x.toNat < y.toNat then true
      else if x.toNat = y.toNat then go xs ys
      else false

/-- Python `s[:n]` for a nonnegative `n` given as `Nat`. -/
def pyTake (n : Nat) (s : String) : String := ⟨s.data.take n⟩

/-- Python `s[:n]` for an arbitrary `Int` `n` (negative indices count
from the end, as in Python slicing). -/
def pySliceTo (n : Int) (s : String) : String :=
  if 0 ≤ n then pyTake n.toNat s
  else pyTake ((s.length : Int) + n).toNat s

/-- Python `s.split()` (split on whitespace runs, no empty fields). -/
def pySplitWs (l : List Char) : List String :=
  go l [] where
  go : List Char → List Char → List String
    | [], acc => if acc = [] then [] else [⟨acc.reverse⟩]
    | c :: cs, acc =>
      if pyIsSpace c then
        if acc = [] then go cs [] else ⟨acc.reverse⟩ :: go cs []
      else go cs (c :: acc)

/-! ## Rational helpers (core `Rat`, kernel-computable) -/

/-- Python `a < b` on numbers. -/
def qlt (a b : Rat) : Bool := Rat.blt a b

/-- Python `a <= b` on numbers. -/
def qle (a b : Rat) : Bool := !Rat.blt b a

/-! ## JSON values -/

/-- JSON value domain (Python objects produced by `json.loads` plus
`bool`/`int`/`float` scalars; numbers are exact rationals). -/
inductive JVal where
  | null : JVal
  | bool (b : Bool) : JVal
  | num (q : Rat) : JVal
  | str (s : String) : JVal
  | arr (l : List JVal) : JVal
  | obj (l : List (String × JVal)) : JVal
  deriving Repr

mutual

/-- Structural (syntactic) equality test on `JVal`. -/
def jvalBeq : JVal → JVal → Bool
  | .null, .null => true
  | .bool a, .bool b => a == b
  | .num a, .num b => a == b
  | .str a, .str b => a == b
  | .arr a, .arr b => jarrBeq a b
  | .obj a, .obj b => jobjBeq a b
  | _, _ => false

def jarrBeq : List JVal → List JVal → Bool
  | [], [] => true
  | x :: xs, y :: ys => jvalBeq x y && jarrBeq xs ys
  | _, _ => false

def jobjBeq : List (String × JVal) → List (String × JVal) → Bool
  | [], [] => true
  | (k, v) :: xs, (k', v') :: ys => k == k' && jvalBeq v v' && jobjBeq xs ys
  | _, _ => false

end

mutual

theorem jvalBeq_refl : ∀ v, jvalBeq v v = true
  | .null => rfl
  | .bool b => by simp [jvalBeq]
  | .num q => by simp [jvalBeq]
  | .str s => by simp [jvalBeq]
  | .arr l => by simp [jvalBeq, jarrBeq_refl l]
  | .obj l => by simp [jvalBeq, jobjBeq_refl l]

theorem jarrBeq_refl : ∀ l, jarrBeq l l = true
  | [] => rfl
  | x :: xs => by simp [jarrBeq, jvalBeq_refl x, jarrBeq_refl xs]

theorem jobjBeq_refl : ∀ l, jobjBeq l l = true
  | [] => rfl
  | (k, v) :: xs => by simp [jobjBeq, jvalBeq_refl v, jobjBeq_refl xs]

end

/-- Comparator used to canonicalize mapping keys for Python `dict`
equality (order-insensitive comparison). -/
def keyLe (a b : String × JVal) : Bool := strLt a.1 b.1 || a.1 == b.1

/-- Stable insert: place `x` before the first element `y` with `le x y`. -/
def pyInsert (le : α → α → Bool) (x : α) : List α → List α
  | [] => [x]
  | y :: ys => if le x y then x :: y :: ys else y :: pyInsert le x ys

/-- Stable ascending sort (insertion sort).  Python's `list.sort` /
`sorted` is a stable ascending sort; for a fixed total preorder the
stable-sorted permutation is unique, so this is observably the same
function as the library sort the source calls. -/
def pySort (le : α → α → Bool) : List α → List α
  | [] => []
  | x :: xs => pyInsert le x (pySort le xs)

mutual

/-- Canonical form for Python `==` on JSON data: `bool` compares equal
to its numeric value (`True == 1`), and `dict` comparison ignores key
order (modelled by sorting the entries by key). -/
def canon : JVal → JVal
  | .null => .null
  | .bool b => .num (if b then 1 else 0)
  | .num q => .num q
  | .str s => .str s
  | .arr l => .arr (canonList l)
  | .obj l => .obj (pySort keyLe (canonObj l))

def canonList : List JVal → List JVal
  | [] => []
  | x :: xs => canon x :: canonList xs

def canonObj : List (String × JVal) → List (String × JVal)
  | [] => []
  | (k, v) :: xs => (k, canon v) :: canonObj xs

end

/-- Python `a == b` on JSON data. -/
def pyEq (a b : JVal) : Bool := jvalBeq (canon a) (canon b)

/-! ### Stable sort lemmas -/

theorem pyInsert_perm (le : α → α → Bool) (x : α) :
    ∀ l : List α, (pyInsert le x l).Perm (x :: l)
  | [] => List.Perm.refl _
  | y :: ys => by
    simp only [pyInsert]
    split
    · exact List.Perm.refl _
    · exact ((pyInsert_perm le x ys).cons y).trans (List.Perm.swap x y ys)

theorem pySort_perm (le : α → α → Bool) : ∀ l : List α, (pySort le l).Perm l
  | [] => List.Perm.refl _
  | x :: xs => (pyInsert_perm le x (pySort le xs)).trans ((pySort_perm le xs).cons x)

theorem mem_pyInsert {le : α → α → Bool} {x a : α} {l : List α} :
    a ∈ pyInsert le x l ↔ a = x ∨ a ∈ l := by
  rw [(pyInsert_perm le x l).mem_iff]; simp

theorem mem_pySort {le : α → α → Bool} {a : α} {l : List α} :
    a ∈ pySort le l ↔ a ∈ l :=
  (pySort_perm le l).mem_iff

theorem pyInsert_pairwise {le : α → α → Bool}
    (trans : ∀ a b c, le a b = true → le b c = true → le a c = true)
    (total : ∀ a b, (le a b || le b a) = true) (x : α) :
    ∀ l : List α, List.Pairwise (fun a b => le a b = true) l →
      List.Pairwise (fun a b => le a b = true) (pyInsert le x l)
  | [], _ => by simp [pyInsert]
  | y :: ys, h => by
    have hy := (List.pairwise_cons.mp h).1
    simp only [pyInsert]
    split
    · rename_i hxy
      exact List.Pairwise.cons
        (fun b hb => by
          rcases List.mem_cons.mp hb with rfl | hb
          · exact hxy
          · exact trans x y b hxy (hy b hb)) h
    · rename_i hxy
      have hyx : le y x = true := by
        rcases Bool.or_eq_true_iff.mp (total x y) with h1 | h1
        · exact absurd h1 hxy
        · exact h1
      exact List.Pairwise.cons
        (fun b hb => by
          rcases mem_pyInsert.mp hb with rfl | hb
          · exact hyx
          · exact hy b hb)
        (pyInsert_pairwise trans total x ys (List.pairwise_cons.mp h).2)

theorem pySort_pairwise {le : α → α → Bool}
    (trans : ∀ a b c, le a b = true → le b c = true → le a c = true)
    (total : ∀ a b, (le a b || le b a) = true) :
    ∀ l : List α, List.Pairwise (fun a b => le a b = true) (pySort le l)
  | [] => List.Pairwise.nil
  | x :: xs => pyInsert_pairwise trans total x _ (pySort_pairwise trans total xs)

theorem pySort_of_sorted {le : α → α → Bool} :
    ∀ {l : List α}, List.Pairwise (fun a b => le a b = true) l → pySort le l = l
  | [], _ => rfl
  | x :: xs, h => by
    have hx := (List.pairwise_cons.mp h).1
    simp only [pySort, pySort_of_sorted (List.pairwise_cons.mp h).2]
    cases xs with
    | nil => rfl
    | cons y ys => simp [pyInsert, hx y (by simp)]

/-- `resolver._value_equal`: identity shortcut (`a is b`, modelled as
structural equality, which is exactly the pairs Python's shortcut can
return `True` for in the NaN-free fragment), whitespace-trimmed
comparison for two strings, Python `==` otherwise. -/
def valueEqual (a b : JVal) : Bool :=
  if jvalBeq a b then true
  else match a, b with
    | .str x, .str y => pyStrip x == pyStrip y
    | _, _ => pyEq a b

theorem valueEqual_refl (v : JVal) : valueEqual v v = true := by
  simp [valueEqual, jvalBeq_refl v]

/-! ## Data model (`schema.py`) -/

/-- A Python `datetime`: the instant (`datetime.timestamp()`, seconds
since epoch as an exact rational) plus its ISO-8601 rendering
(`datetime.isoformat()`, carried opaquely).  All comparisons the source
performs on datetimes compare the instants. -/
structure DT where
  stamp : Rat
  iso : String
  deriving Repr, DecidableEq

/-- A `Fact` or `Preference` (`schema.Fact` / `schema.Preference`; the
two classes have identical fields and the resolver treats them by the
same duck-typed algorithm). -/
structure KV where
  key : String
  value : JVal
  ts : DT
  confidence : Rat
  source : String
  deriving Repr

/-- `schema.Entity` (the `type` literal is carried as its string). -/
structure Entity where
  name : String
  type : String
  aliases : List String
  deriving Repr, DecidableEq

/-- `schema.OpenLoop`. -/
structure OpenLoop where
  item : String
  ts : DT
  source : String
  deriving Repr

/-- `schema.Contradiction`. -/
structure Contradiction where
  key : String
  old : JVal
  new : JVal
  ts_old : DT
  ts_new : DT
  source_old : String
  source_new : String
  deriving Repr

/-- `schema.SourceRef`. -/
structure SourceRef where
  id : String
  kind : String
  ts : DT
  hash : Option String
  source : Option String
  deriving Repr, DecidableEq

/-- `schema.Passport` (`meta` is an arbitrary JSON mapping). -/
structure Passport where
  version : String
  updated_at : DT
  user_key : Option String
  facts : List KV
  prefs : List KV
  entities : List Entity
  open_loops : List OpenLoop
  contradictions : List Contradiction
  sources : List SourceRef
  meta : List (String × JVal)
  deriving Repr

/-- `resolver.ResolveStats`. -/
structure ResolveStats where
  facts_upserted : Nat := 0
  prefs_upserted : Nat := 0
  entities_merged : Nat := 0
  open_loops_added : Nat := 0
  contradictions_added : Nat := 0
  deriving Repr, DecidableEq

/-! ## Resolver (`resolver.py`) -/

/-- `resolver._norm_key`: `(key or "").strip().lower()`. -/
def normKey (key : String) : String := pyLower (pyStrip key)

/-- `resolver._entity_key`: `(name or "").strip().lower()`. -/
def entityKey (name : String) : String := pyLower (pyStrip name)

/-- `resolver._upsert_kv_with_temporal_priority`, functionally: takes
the stored list and the contradiction ledger, returns the new list, the
new ledger, the `updated` flag and the recorded contradiction (if any).
The in-place mutations of `incoming.key` and `current.key` become field
updates on the returned entries. -/
def upsertKV (items : List KV) (incoming : KV) (contradictions : List Contradiction) :
    List KV × List Contradiction × Bool × Option Contradiction :=
  let key := normKey incoming.key
  let inc : KV := { incoming with key := key }
  match items.findIdx? (fun it => normKey it.key == key) with
  | none => (items ++ [inc], contradictions, true, none)
  | some idx =>
    let current := items.getD idx inc
    let current : KV := { current with key := key }
    if valueEqual current.value inc.value then
      let current := if qlt current.ts.stamp inc.ts.stamp then
        { current with ts := inc.ts, source := inc.source } else current
      let current := if qlt current.confidence inc.confidence then
        { current with confidence := inc.confidence } else current
      (items.set idx current, contradictions, false, none)
    else if qle current.ts.stamp inc.ts.stamp then
      let c : Contradiction :=
        { key := key, old := current.value, new := inc.value,
          ts_old := current.ts, ts_new := inc.ts,
          source_old := current.source, source_new := inc.source }
      (items.set idx inc, contradictions ++ [c], true, some c)
    else
      let c : Contradiction :=
        { key := key, old := inc.value, new := current.value,
          ts_old := inc.ts, ts_new := current.ts,
          source_old := inc.source, source_new := current.source }
      (items.set idx current, contradictions ++ [c], false, some c)

/-- The body of `add_alias` inside `resolver._merge_entity`: strip the
candidate, drop it if empty or its lowercase form was already seen,
otherwise append it and remember the lowercase form. -/
def addAlias (st : List String × List String) (x : String) : List String × List String :=
  let x := pyStrip x
  if x = "" then st
  else
    let k := pyLower x
    if st.2.contains k then st
    else (st.1 ++ [x], st.2 ++ [k])

/-- `resolver._merge_entity`. -/
def mergeEntity (existing incoming : Entity) : Entity :=
  let st : List String × List String := (existing.aliases, existing.aliases.map pyLower)
  let st :=
    if pyLower (pyStrip existing.name) ≠ pyLower (pyStrip incoming.name) then
      addAlias st incoming.name
    else st
  let st := incoming.aliases.foldl addAlias st
  let typ := if existing.type = "other" ∧ incoming.type ≠ "other" then incoming.type
    else existing.type
  { name := existing.name, type := typ, aliases := st.1 }

/-! ### Python `dict` as an association list -/

/-- Python `d.get(k)` / `k in d`. -/
def dictGet (d : List (String × α)) (k : String) : Option α :=
  match d.find? (fun kv => kv.1 == k) with
  | some kv => some kv.2
  | none => none

/-- Python `d[k] = v`: update in place if the key exists (keeping its
position), else append. -/
def dictSet (d : List (String × α)) (k : String) (v : α) : List (String × α) :=
  match d.findIdx? (fun kv => kv.1 == k) with
  | some idx => d.set idx (k, v)
  | none => d ++ [(k, v)]

/-- `resolver._dedupe_open_loops`: whitespace-collapsed lowercase text. -/
def loopNorm (item : String) : String :=
  String.intercalate " " (pySplitWs (pyLower (pyStrip item)).data)

/-- `resolver._dedupe_open_loops`, functionally: returns the updated
list and the `added/updated` flag. -/
def dedupeOpenLoops (existing : List OpenLoop) (incoming : OpenLoop) :
    List OpenLoop × Bool :=
  let norm := loopNorm incoming.item
  if norm = "" then (existing, false)
  else
    match existing.findIdx? (fun loop => loopNorm loop.item == norm) with
    | some i =>
      let loop := (existing.getD i incoming)
      if qlt loop.ts.stamp incoming.ts.stamp then (existing.set i incoming, true)
      else (existing, false)
    | none => (existing ++ [incoming], true)

/-- State threaded through the facts/prefs loops of
`merge_passport_update`: stored list, contradiction ledger, upsert
count, contradiction count. -/
structure KVFoldState where
  items : List KV
  contradictions : List Contradiction
  upserts : Nat
  contras : Nat
  deriving Repr

/-- One iteration of the facts (or prefs) loop of
`merge_passport_update`. -/
def kvStep (st : KVFoldState) (f : KV) : KVFoldState :=
  let (items, contradictions, updated, c) := upsertKV st.items f st.contradictions
  { items := items, contradictions := contradictions,
    upserts := st.upserts + (if updated then 1 else 0),
    contras := st.contras + (if c.isSome then 1 else 0) }

/-- State threaded through the entities loop of
`merge_passport_update`: entity list, `entity_map`, `alias_index`,
merge count. -/
structure EntFoldState where
  entities : List Entity
  entityMap : List (String × Entity)
  aliasIndex : List (String × String)
  merged : Nat
  deriving Repr

/-- Replace the first entity in the list whose name key is `k`
(the `for i, e in enumerate(base.entities): ... break` rehydration). -/
def setFirstByNameKey (l : List Entity) (k : String) (e : Entity) : List Entity :=
  match l.findIdx? (fun x => entityKey x.name == k) with
  | some i => l.set i e
  | none => l

/-- The `for a in inc.aliases: ... break` fallback lookup inside the
entities loop: first alias hitting `entity_map` yields its own key,
first alias hitting `alias_index` yields the owning key. -/
def aliasTarget (entityMap : List (String × Entity)) (aliasIndex : List (String × String)) :
    List String → Option String
  | [] => none
  | a :: rest =>
    let ak := entityKey a
    if (dictGet entityMap ak).isSome then some ak
    else match dictGet aliasIndex ak with
      | some owner => some owner
      | none => aliasTarget entityMap aliasIndex rest

/-- One iteration of the entities loop of `merge_passport_update`. -/
def entStep (st : EntFoldState) (inc : Entity) : EntFoldState :=
  let incNameK := entityKey inc.name
  let targetK : Option String :=
    if (dictGet st.entityMap incNameK).isSome then some incNameK
    else if (dictGet st.aliasIndex incNameK).isSome then dictGet st.aliasIndex incNameK
    else aliasTarget st.entityMap st.aliasIndex inc.aliases
  match targetK with
  | none =>
    { entities := st.entities ++ [inc],
      entityMap := dictSet st.entityMap incNameK inc,
      aliasIndex := inc.aliases.foldl (fun ai a => dictSet ai (entityKey a) incNameK)
        st.aliasIndex,
      merged := st.merged + 1 }
  | some k =>
    let target := (dictGet st.entityMap k).getD inc
    let merged := mergeEntity target inc
    { entities := setFirstByNameKey st.entities k merged,
      entityMap := dictSet st.entityMap k merged,
      aliasIndex := merged.aliases.foldl (fun ai a => dictSet ai (entityKey a) k)
        st.aliasIndex,
      merged := st.merged + 1 }

/-- Python `==` on strings, as a `Bool` shorthand for comparators. -/
def strEq (a b : String) : Bool := a == b

/-- Python tuple-`≤` used to model the stable ascending sorts: strict
first component, tie broken by `≤` on the second. -/
def lexLe (lt₁ eq₁ : Bool) (le₂ : Bool) : Bool := lt₁ || (eq₁ && le₂)

/-- Sort key comparator for `base.facts.sort(key=lambda x: (_norm_key(x.key),
-x.ts.timestamp()))`. -/
def kvLe (a b : KV) : Bool :=
  lexLe (strLt (normKey a.key) (normKey b.key)) (strEq (normKey a.key) (normKey b.key))
    (qle (Rat.neg a.ts.stamp) (Rat.neg b.ts.stamp))

/-- Comparator for `base.entities.sort(key=lambda x: (_entity_key(x.name),
x.type))`. -/
def entLe (a b : Entity) : Bool :=
  lexLe (strLt (entityKey a.name) (entityKey b.name))
    (strEq (entityKey a.name) (entityKey b.name))
    (strLt a.type b.type || strEq a.type b.type)

/-- Comparator for `base.open_loops.sort(key=lambda x: (-x.ts.timestamp(),
(x.item or "").lower()))`. -/
def loopLe (a b : OpenLoop) : Bool :=
  lexLe (qlt (Rat.neg a.ts.stamp) (Rat.neg b.ts.stamp))
    ((Rat.neg a.ts.stamp) == (Rat.neg b.ts.stamp))
    (strLt (pyLower a.item) (pyLower b.item) || strEq (pyLower a.item) (pyLower b.item))

/-- Comparator for `base.contradictions.sort(key=lambda x: (_norm_key(x.key),
-x.ts_new.timestamp()))`. -/
def contraLe (a b : Contradiction) : Bool :=
  lexLe (strLt (normKey a.key) (normKey b.key)) (strEq (normKey a.key) (normKey b.key))
    (qle (Rat.neg a.ts_new.stamp) (Rat.neg b.ts_new.stamp))

/-- One iteration of the open-loops loop of `merge_passport_update`. -/
def loopStep (st : List OpenLoop × Nat) (o : OpenLoop) : List OpenLoop × Nat :=
  let (l, added) := dedupeOpenLoops st.1 o
  (l, st.2 + (if added then 1 else 0))

/-- The `entity_map` rebuilt from `base.entities` at the top of the
entities loop of `merge_passport_update`. -/
def buildMap (l : List Entity) : List (String × Entity) :=
  l.foldl (fun m e => dictSet m (entityKey e.name) e) []

/-- The `alias_index` rebuilt from `base.entities` at the top of the
entities loop of `merge_passport_update`. -/
def buildAidx (l : List Entity) : List (String × String) :=
  l.foldl
    (fun ai e => e.aliases.foldl (fun ai a => dictSet ai (entityKey a) (entityKey e.name)) ai)
    []

/-- `resolver.merge_passport_update`.  The mutation of `base` becomes a
returned value; `base.touch()` becomes the explicit `now` argument
(`updated_at := now`). -/
def mergePassportUpdate (base : Passport) (facts prefs : List KV)
    (entities : List Entity) (openLoops : List OpenLoop) (now : DT) :
    Passport × ResolveStats :=
  let fs := facts.foldl kvStep
    { items := base.facts, contradictions := base.contradictions,
      upserts := 0, contras := 0 }
  let ps := prefs.foldl kvStep
    { items := base.prefs, contradictions := fs.contradictions,
      upserts := 0, contras := 0 }
  let es := entities.foldl entStep
    { entities := base.entities, entityMap := buildMap base.entities,
      aliasIndex := buildAidx base.entities, merged := 0 }
  let ls := openLoops.foldl loopStep (base.open_loops, 0)
  let stats : ResolveStats :=
    { facts_upserted := fs.upserts, prefs_upserted := ps.upserts,
      entities_merged := es.merged, open_loops_added := ls.2,
      contradictions_added := fs.contras + ps.contras }
  ({ base with
      facts := pySort kvLe fs.items,
      prefs := pySort kvLe ps.items,
      entities := pySort entLe es.entities,
      open_loops := pySort loopLe ls.1,
      contradictions := pySort contraLe ps.contradictions,
      updated_at := now },
    stats)

/-! ## Basic bridging lemmas -/

theorem qlt_iff {a b : Rat} : qlt a b = true ↔ a < b := Iff.rfl

theorem qle_iff {a b : Rat} : qle a b = true ↔ a ≤ b := by
  unfold qle
  constructor
  · intro h
    rw [Bool.not_eq_true'] at h
    rw [← not_lt]
    intro hlt
    exact absurd (qlt_iff.mpr hlt : qlt b a = true) (by simp [qlt, h])
  · intro h
    have hf : Rat.blt b a = false := by
      cases hb : Rat.blt b a
      · rfl
      · exact absurd (qlt_iff.mp hb : b < a) (not_lt.mpr h)
    simp [qle, hf]

theorem getElem?_of_get? {l : List α} {i : Nat} {a : α} (h : l.get? i = some a) :
    l[i]? = some a := by
  simpa [List.get?_eq_getElem?] using h

/-! ## Claim theorems: temporal upsert (C1, C2) -/

/-- **C1.** When the incoming fact/preference hits an existing entry
with the same normalized key and a value that is *not* equal under the
JSON-ish equivalence, `_upsert_kv_with_temporal_priority` (the worker
`merge_passport_update` delegates to) replaces the stored entry with the
incoming one exactly when `incoming.ts ≥ current.ts`, keeps the stored
entry when the incoming one is strictly older, and in both cases appends
exactly one `Contradiction` whose `old`-side fields come from the older
value (the stored one when the incoming is newer-or-equal, the incoming
one when it is older). -/
theorem upsertKV_conflict_temporal_priority
    (items : List KV) (inc : KV) (cs : List Contradiction) (idx : Nat) (cur : KV)
    (hfind : items.findIdx? (fun it => normKey it.key == normKey inc.key) = some idx)
    (hget : items.get? idx = some cur)
    (hval : valueEqual cur.value inc.value = false) :
    (cur.ts.stamp ≤ inc.ts.stamp →
      upsertKV items inc cs =
        (items.set idx { inc with key := normKey inc.key },
         cs ++ [{ key := normKey inc.key, old := cur.value, new := inc.value,
                  ts_old := cur.ts, ts_new := inc.ts,
                  source_old := cur.source, source_new := inc.source }],
         true,
         some { key := normKey inc.key, old := cur.value, new := inc.value,
                ts_old := cur.ts, ts_new := inc.ts,
                source_old := cur.source, source_new := inc.source })) ∧
    (inc.ts.stamp < cur.ts.stamp →
      upsertKV items inc cs =
        (items.set idx { cur with key := normKey inc.key },
         cs ++ [{ key := normKey inc.key, old := inc.value, new := cur.value,
                  ts_old := inc.ts, ts_new := cur.ts,
                  source_old := inc.source, source_new := cur.source }],
         false,
         some { key := normKey inc.key, old := inc.value, new := cur.value,
                ts_old := inc.ts, ts_new := cur.ts,
                source_old := inc.source, source_new := cur.source })) := by
  have hidx : items[idx]? = some cur := getElem?_of_get? hget
  constructor
  · intro hts
    have hq : qle cur.ts.stamp inc.ts.stamp = true := qle_iff.mpr hts
    simp [upsertKV, hfind, List.getD, hidx, hval, hq]
  · intro hts
    have hq : qle cur.ts.stamp inc.ts.stamp = false := by
      rw [← Bool.not_eq_true, qle_iff]; exact not_le.mpr hts
    simp [upsertKV, hfind, List.getD, hidx, hval, hq]

/-- **C2.** When the incoming fact/preference hits an existing entry
with the same normalized key and an equal value under the JSON-ish
equivalence, the upsert keeps the stored entry's value, adopts the
incoming `ts`/`source` exactly when the incoming `ts` is strictly later,
raises the stored confidence to the maximum of the two, records no
contradiction, and reports `updated = false` (not counted as an upsert
in `ResolveStats`). -/
theorem upsertKV_equal_value_refresh
    (items : List KV) (inc : KV) (cs : List Contradiction) (idx : Nat) (cur : KV)
    (hfind : items.findIdx? (fun it => normKey it.key == normKey inc.key) = some idx)
    (hget : items.get? idx = some cur)
    (hval : valueEqual cur.value inc.value = true) :
    upsertKV items inc cs =
      (items.set idx
        { key := normKey inc.key,
          value := cur.value,
          ts := if cur.ts.stamp < inc.ts.stamp then inc.ts else cur.ts,
          confidence := max cur.confidence inc.confidence,
          source := if cur.ts.stamp < inc.ts.stamp then inc.source else cur.source },
       cs, false, none) := by
  have hidx : items[idx]? = some cur := getElem?_of_get? hget
  by_cases hts : cur.ts.stamp < inc.ts.stamp
  · have hq : qlt cur.ts.stamp inc.ts.stamp = true := qlt_iff.mpr hts
    by_cases hc : cur.confidence < inc.confidence
    · have hqc : qlt cur.confidence inc.confidence = true := qlt_iff.mpr hc
      simp [upsertKV, hfind, List.getD, hidx, hval, hq, hqc, hts, hc, max_eq_right hc.le]
    · have hqc : qlt cur.confidence inc.confidence = false := by
        rw [← Bool.not_eq_true, qlt_iff]; exact hc
      simp [upsertKV, hfind, List.getD, hidx, hval, hq, hqc, hts, hc,
        max_eq_left (not_lt.mp hc)]
  · have hq : qlt cur.ts.stamp inc.ts.stamp = false := by
      rw [← Bool.not_eq_true, qlt_iff]; exact hts
    by_cases hc : cur.confidence < inc.confidence
    · have hqc : qlt cur.confidence inc.confidence = true := qlt_iff.mpr hc
      simp [upsertKV, hfind, List.getD, hidx, hval, hq, hqc, hts, hc, max_eq_right hc.le]
    · have hqc : qlt cur.confidence inc.confidence = false := by
        rw [← Bool.not_eq_true, qlt_iff]; exact hc
      simp [upsertKV, hfind, List.getD, hidx, hval, hq, hqc, hts, hc,
        max_eq_left (not_lt.mp hc)]

/-- Stored entry used by the C1/C2 witnesses. -/
def curW : KV :=
  { key := "Role", value := .str "developer", ts := ⟨mkRat 3 1, "2026-02-03T10:00:00+00:00"⟩,
    confidence := mkRat 9 10, source := "t1" }

/-- Newer conflicting incoming entry (C1 witness, first case). -/
def incNewW : KV :=
  { key := "role", value := .str "student", ts := ⟨mkRat 5 1, "2026-02-05T10:00:00+00:00"⟩,
    confidence := mkRat 8 10, source := "t2" }

/-- Older conflicting incoming entry (C1 witness, second case). -/
def incOldW : KV :=
  { key := "role", value := .str "student", ts := ⟨mkRat 1 1, "2026-02-01T10:00:00+00:00"⟩,
    confidence := mkRat 8 10, source := "t0" }

/-- Equal-valued incoming entry (C2 witness). -/
def incEqW : KV :=
  { key := "role", value := .str "  developer ", ts := ⟨mkRat 5 1, "2026-02-05T10:00:00+00:00"⟩,
    confidence := mkRat 7 10, source := "t2" }

theorem upsertKV_conflict_temporal_priority_witness :
    upsertKV [curW] incNewW [] =
      ([curW].set 0 { incNewW with key := normKey incNewW.key },
       [{ key := normKey incNewW.key, old := curW.value, new := incNewW.value,
          ts_old := curW.ts, ts_new := incNewW.ts,
          source_old := curW.source, source_new := incNewW.source }],
       true,
       some { key := normKey incNewW.key, old := curW.value, new := incNewW.value,
              ts_old := curW.ts, ts_new := incNewW.ts,
              source_old := curW.source, source_new := incNewW.source }) ∧
    upsertKV [curW] incOldW [] =
      ([curW].set 0 { curW with key := normKey incOldW.key },
       [{ key := normKey incOldW.key, old := incOldW.value, new := curW.value,
          ts_old := incOldW.ts, ts_new := curW.ts,
          source_old := incOldW.source, source_new := curW.source }],
       false,
       some { key := normKey incOldW.key, old := incOldW.value, new := curW.value,
              ts_old := incOldW.ts, ts_new := curW.ts,
              source_old := incOldW.source, source_new := curW.source }) :=
  ⟨(upsertKV_conflict_temporal_priority [curW] incNewW [] 0 curW (by decide) rfl
      (by decide)).1 (by decide),
   (upsertKV_conflict_temporal_priority [curW] incOldW [] 0 curW (by decide) rfl
      (by decide)).2 (by decide)⟩

theorem upsertKV_equal_value_refresh_witness :
    upsertKV [curW] incEqW [] =
      ([curW].set 0
        { key := normKey incEqW.key,
          value := curW.value,
          ts := if curW.ts.stamp < incEqW.ts.stamp then incEqW.ts else curW.ts,
          confidence := max curW.confidence incEqW.confidence,
          source := if curW.ts.stamp < incEqW.ts.stamp then incEqW.source else curW.source },
       [], false, none) :=
  upsertKV_equal_value_refresh [curW] incEqW [] 0 curW (by decide) rfl (by decide)

/-! ## Claim theorem: merge frame (C10) -/

/-- **C10.** `merge_passport_update` never touches `version`,
`user_key`, `sources` or `meta`: only the five merged lists and
`updated_at` can change. -/
theorem mergePassportUpdate_frame (base : Passport) (facts prefs : List KV)
    (entities : List Entity) (openLoops : List OpenLoop) (now : DT) :
    ((mergePassportUpdate base facts prefs entities openLoops now).1.version
        = base.version) ∧
    ((mergePassportUpdate base facts prefs entities openLoops now).1.user_key
        = base.user_key) ∧
    ((mergePassportUpdate base facts prefs entities openLoops now).1.sources
        = base.sources) ∧
    ((mergePassportUpdate base facts prefs entities openLoops now).1.meta
        = base.meta) ∧
    ((mergePassportUpdate base facts prefs entities openLoops now).1.updated_at
        = now) :=
  ⟨rfl, rfl, rfl, rfl, rfl⟩

/-! ## Claim theorem: entity merge rule (C6) -/

/-- First-seen, case-insensitive, whitespace-trimmed union: fold the
`add_alias` body over the candidates starting from an empty alias list
and empty seen-set. -/
def dedupeCI (l : List String) : List String := (l.foldl addAlias ([], [])).1

/-- The match relation the entities loop of `merge_passport_update`
uses before calling `_merge_entity`: incoming name equals the existing
name or one of its aliases, or some incoming alias does
(case-insensitive, trimmed). -/
def entityMatches (e i : Entity) : Bool :=
  entityKey i.name == entityKey e.name ||
  (e.aliases.map entityKey).contains (entityKey i.name) ||
  i.aliases.any (fun a => entityKey a == entityKey e.name ||
    (e.aliases.map entityKey).contains (entityKey a))

theorem str_contains_iff {l : List String} {s : String} :
    l.contains s = true ↔ s ∈ l := by
  simp

theorem str_contains_eq_false {l : List String} {s : String} (h : s ∉ l) :
    l.contains s = false := by
  rw [← Bool.not_eq_true, str_contains_iff]; exact h

theorem foldl_addAlias_of_clean :
    ∀ (l : List String) (acc : List String × List String),
    (∀ a ∈ l, pyStrip a = a ∧ a ≠ "") →
    (∀ a ∈ l, pyLower a ∉ acc.2) →
    l.Pairwise (fun a b => pyLower a ≠ pyLower b) →
    l.foldl addAlias acc = (acc.1 ++ l, acc.2 ++ l.map pyLower)
  | [], acc, _, _, _ => by simp
  | a :: rest, acc, hstrip, hdisj, hnd => by
    have ha := hstrip a (by simp)
    have hseen : acc.2.contains (pyLower a) = false :=
      str_contains_eq_false (hdisj a (by simp))
    have step : addAlias acc a = (acc.1 ++ [a], acc.2 ++ [pyLower a]) := by
      simp only [addAlias, ha.1]
      rw [if_neg ha.2, hseen]
      simp
    have ih := foldl_addAlias_of_clean rest (acc.1 ++ [a], acc.2 ++ [pyLower a])
      (fun x hx => hstrip x (by simp [hx]))
      (fun x hx => by
        have h1 := hdisj x (by simp [hx])
        have h2 : pyLower a ≠ pyLower x :=
          (List.pairwise_cons.mp hnd).1 x hx
        simp only [List.mem_append, List.mem_singleton]
        rintro (hmem | hmem)
        · exact h1 hmem
        · exact h2 hmem.symm)
      (List.pairwise_cons.mp hnd).2
    simp only [List.foldl_cons, step, ih]
    simp

/-- **C6.** For an existing entity whose alias list satisfies the
schema invariant (trimmed, non-empty, case-insensitively unique — the
`_clean_aliases` pydantic validator guarantees this for every
constructed `Entity`) and any incoming entity matching it by name or
alias, `_merge_entity` keeps the existing canonical name, takes the
first-seen case-insensitive union of the aliases in which the incoming
name participates exactly when it differs case-insensitively from the
canonical name, and upgrades the type only from `other` to a more
specific incoming type. -/
theorem mergeEntity_rule (e i : Entity)
    (hclean : ∀ a ∈ e.aliases, pyStrip a = a ∧ a ≠ "")
    (hnd : e.aliases.Pairwise (fun a b => pyLower a ≠ pyLower b))
    (hmatch : entityMatches e i = true) :
    (mergeEntity e i).name = e.name ∧
    (mergeEntity e i).type =
      (if e.type = "other" ∧ i.type ≠ "other" then i.type else e.type) ∧
    (mergeEntity e i).aliases =
      dedupeCI (e.aliases ++
        (if entityKey i.name ≠ entityKey e.name then [i.name] else []) ++
        i.aliases) := by
  refine ⟨rfl, rfl, ?_⟩
  have hbase : e.aliases.foldl addAlias ([], []) = (e.aliases, e.aliases.map pyLower) := by
    simpa using foldl_addAlias_of_clean e.aliases ([], []) hclean (by simp) hnd
  have hsplit :
      dedupeCI (e.aliases ++
          (if entityKey i.name ≠ entityKey e.name then [i.name] else []) ++
          i.aliases) =
        (i.aliases.foldl addAlias
          (((if entityKey i.name ≠ entityKey e.name then [i.name] else []).foldl
            addAlias (e.aliases, e.aliases.map pyLower)))).1 := by
    simp [dedupeCI, List.foldl_append, hbase]
  rw [hsplit]
  show (i.aliases.foldl addAlias
      (if pyLower (pyStrip e.name) ≠ pyLower (pyStrip i.name)
        then addAlias (e.aliases, e.aliases.map pyLower) i.name
        else (e.aliases, e.aliases.map pyLower))).1 = _
  by_cases hname : entityKey i.name = entityKey e.name
  · have h1 : ¬ (pyLower (pyStrip e.name) ≠ pyLower (pyStrip i.name)) := by
      simpa [entityKey] using hname.symm
    have h2 : ¬ (entityKey i.name ≠ entityKey e.name) := by simpa using hname
    rw [if_neg h1, if_neg h2]
    simp
  · have h1 : pyLower (pyStrip e.name) ≠ pyLower (pyStrip i.name) := by
      simp only [entityKey] at hname
      exact fun h => hname h.symm
    rw [if_pos h1, if_pos hname]
    simp

/-- Entity pair used by the C6 witness (spec scenario 4). -/
def entW : Entity := { name := "SozoGraph", type := "project", aliases := ["Sozo Graph"] }

/-- Incoming entity used by the C6 witness. -/
def incEntW : Entity := { name := "Sozo Graph", type := "project", aliases := ["SozoGraph v1"] }

theorem mergeEntity_rule_witness :
    (mergeEntity entW incEntW).name = entW.name ∧
    (mergeEntity entW incEntW).type =
      (if entW.type = "other" ∧ incEntW.type ≠ "other" then incEntW.type else entW.type) ∧
    (mergeEntity entW incEntW).aliases =
      dedupeCI (entW.aliases ++
        (if entityKey incEntW.name ≠ entityKey entW.name then [incEntW.name] else []) ++
        incEntW.aliases) :=
  mergeEntity_rule entW incEntW (by decide) (by simp [entW]) (by decide)

/-! ## Key normalization (`utils.normalize_key`) and uniqueness (C4) -/

/-- `[a-z0-9]` membership (the complement of `utils._KEY_RE` on the
already-lowercased string). -/
def isKeyChar (c : Char) : Bool :=
  (97 ≤ c.toNat && c.toNat ≤ 122) || (48 ≤ c.toNat && c.toNat ≤ 57)

/-- `_KEY_RE.sub("_", value)`: collapse each maximal run of
non-`[a-z0-9]` characters into one underscore.  The flag records
whether the previous character was part of such a run. -/
def collapseRuns : Bool → List Char → List Char
  | _, [] => []
  | prevSep, c :: cs =>
    if isKeyChar c then c :: collapseRuns false cs
    else if prevSep then collapseRuns true cs
    else '_' :: collapseRuns true cs

/-- Python `s.strip("_")`. -/
def stripUnderscoreL (l : List Char) : List Char :=
  ((l.dropWhile (fun c => c == '_')).reverse.dropWhile (fun c => c == '_')).reverse

/-- `utils.normalize_key`: strip, lowercase, collapse non-alphanumeric
runs to `_`, strip surrounding `_`; empty input yields `""`. -/
def normalizeKey (s : String) : String :=
  if s = "" then ""
  else ⟨stripUnderscoreL (collapseRuns false (pyLower (pyStrip s)).data)⟩

/-! ### Idempotence of `_norm_key` -/

theorem pyToLower_idem (c : Char) : pyToLower (pyToLower c) = pyToLower c := by
  unfold pyToLower
  by_cases h : 65 ≤ c.toNat ∧ c.toNat ≤ 90
  · rw [if_pos h]
    have hv : (c.toNat + 32).isValidChar := by
      rcases h with ⟨h1, h2⟩
      left; omega
    have hval : (Char.ofNat (c.toNat + 32)).toNat = c.toNat + 32 := by
      unfold Char.ofNat
      rw [dif_pos hv]
      rfl
    rw [if_neg]
    rw [hval]
    rcases h with ⟨h1, h2⟩
    omega
  · rw [if_neg h, if_neg h]

theorem pyIsSpace_pyToLower (c : Char) : pyIsSpace (pyToLower c) = pyIsSpace c := by
  unfold pyToLower
  by_cases h : 65 ≤ c.toNat ∧ c.toNat ≤ 90
  · rw [if_pos h]
    have hv : (c.toNat + 32).isValidChar := by
      rcases h with ⟨h1, h2⟩
      left; omega
    have hval : (Char.ofNat (c.toNat + 32)).toNat = c.toNat + 32 := by
      unfold Char.ofNat
      rw [dif_pos hv]
      rfl
    have h1 : pyIsSpace (Char.ofNat (c.toNat + 32)) = false := by
      unfold pyIsSpace
      rw [hval]
      simp only [Bool.or_eq_false_iff, decide_eq_false_iff_not]
      omega
    have h2 : pyIsSpace c = false := by
      unfold pyIsSpace
      simp only [Bool.or_eq_false_iff, decide_eq_false_iff_not]
      rcases h with ⟨ha, hb⟩
      omega
    rw [h1, h2]
  · rw [if_neg h]

theorem pyLower_idem (s : String) : pyLower (pyLower s) = pyLower s := by
  simp [pyLower, Function.comp_def, pyToLower_idem]

theorem pyStripL_map_pyToLower (l : List Char) :
    pyStripL (l.map pyToLower) = (pyStripL l).map pyToLower := by
  unfold pyStripL
  rw [List.dropWhile_map, ← List.map_reverse, List.dropWhile_map, ← List.map_reverse]
  have : (pyIsSpace ∘ pyToLower) = pyIsSpace := funext pyIsSpace_pyToLower
  rw [this]

theorem pyStrip_pyLower (s : String) : pyStrip (pyLower s) = pyLower (pyStrip s) := by
  simp [pyStrip, pyLower, pyStripL_map_pyToLower]

theorem dropWhile_dropWhile (p : α → Bool) :
    ∀ l : List α, List.dropWhile p (List.dropWhile p l) = List.dropWhile p l
  | [] => rfl
  | x :: xs => by
    by_cases h : p x <;> simp [List.dropWhile_cons, h, dropWhile_dropWhile p xs]

theorem dropWhile_append_last {p : α → Bool} {x : α} (hx : p x = false) :
    ∀ A : List α, ∃ B, List.dropWhile p (A ++ [x]) = B ++ [x]
  | [] => ⟨[], by simp [List.dropWhile_cons, hx]⟩
  | a :: A => by
    by_cases h : p a
    · simpa [List.dropWhile_cons, h] using dropWhile_append_last hx A
    · exact ⟨a :: A, by simp [List.dropWhile_cons, h]⟩

theorem dropWhile_head_false {p : α → Bool} :
    ∀ {l : List α} {x : α} {xs : List α}, List.dropWhile p l = x :: xs → p x = false
  | [], x, xs => by simp
  | a :: l, x, xs => by
    by_cases h : p a
    · simp only [List.dropWhile_cons, h, if_true]
      exact dropWhile_head_false
    · simp only [List.dropWhile_cons, h, if_false]
      rintro ⟨rfl, rfl⟩
      simpa using h

theorem pyStripL_idem (l : List Char) : pyStripL (pyStripL l) = pyStripL l := by
  cases hu : l.dropWhile pyIsSpace with
  | nil => simp [pyStripL, hu]
  | cons x xs =>
    have hx : pyIsSpace x = false := dropWhile_head_false hu
    obtain ⟨B, hB⟩ := dropWhile_append_last hx (xs.reverse)
    have hrev : (x :: xs).reverse = xs.reverse ++ [x] := by simp
    have hs : pyStripL l = (B ++ [x]).reverse := by
      simp only [pyStripL, hu, hrev, hB]
    have step1 : List.dropWhile pyIsSpace (pyStripL l) = pyStripL l := by
      rw [hs]
      simp only [List.reverse_append, List.reverse_cons, List.reverse_nil, List.nil_append,
        List.cons_append, List.singleton_append, List.dropWhile_cons, hx]
      simp
    have step2 : List.dropWhile pyIsSpace (pyStripL l).reverse = (pyStripL l).reverse := by
      rw [hs, List.reverse_reverse, ← hB]
      exact dropWhile_dropWhile _ _
    calc pyStripL (pyStripL l)
        = (((pyStripL l).dropWhile pyIsSpace).reverse.dropWhile pyIsSpace).reverse := rfl
      _ = ((pyStripL l).reverse.dropWhile pyIsSpace).reverse := by rw [step1]
      _ = ((pyStripL l).reverse).reverse := by rw [step2]
      _ = pyStripL l := by rw [List.reverse_reverse]

theorem pyStrip_idem (s : String) : pyStrip (pyStrip s) = pyStrip s := by
  simp [pyStrip, pyStripL_idem]

theorem normKey_idem (s : String) : normKey (normKey s) = normKey s := by
  unfold normKey
  rw [pyStrip_pyLower, pyStrip_idem, pyLower_idem]

/-! ### C4: uniqueness of stored keys -/

/-- Each resolver key (`_norm_key`: trimmed + lowercased) appears at
most once in the list. -/
def NormKeyUnique (l : List KV) : Prop :=
  l.Pairwise (fun a b => normKey a.key ≠ normKey b.key)

theorem normKeyUnique_perm {l₁ l₂ : List KV} (hp : l₁.Perm l₂)
    (h : NormKeyUnique l₁) : NormKeyUnique l₂ :=
  (hp.pairwise_iff (fun hxy => hxy ∘ Eq.symm)).mp h

theorem normKeyUnique_set :
    ∀ {l : List KV} {i : Nat} {cur x : KV}, NormKeyUnique l → l.get? i = some cur →
      normKey x.key = normKey cur.key → NormKeyUnique (l.set i x)
  | [], i, cur, x, _, hget, _ => by simp at hget
  | a :: t, 0, cur, x, h, hget, hkey => by
    have hac : cur = a := by simpa using hget.symm
    subst hac
    refine List.Pairwise.cons ?_ (List.pairwise_cons.mp h).2
    intro b hb
    rw [hkey]
    exact (List.pairwise_cons.mp h).1 b hb
  | a :: t, i + 1, cur, x, h, hget, hkey => by
    have hget' : t.get? i = some cur := by simpa using hget
    have hcur : cur ∈ t := List.get?_mem hget'
    refine List.Pairwise.cons ?_ (normKeyUnique_set (List.pairwise_cons.mp h).2 hget' hkey)
    intro b hb
    rcases List.mem_or_eq_of_mem_set hb with hb | rfl
    · exact (List.pairwise_cons.mp h).1 b hb
    · rw [hkey]
      exact (List.pairwise_cons.mp h).1 cur hcur

theorem upsertKV_unique {items : List KV} {inc : KV} {cs : List Contradiction}
    (h : NormKeyUnique items) : NormKeyUnique (upsertKV items inc cs).1 := by
  unfold upsertKV
  cases hfind : items.findIdx? (fun it => normKey it.key == normKey inc.key) with
  | none =>
    simp only [hfind]
    rw [NormKeyUnique, List.pairwise_append]
    refine ⟨h, by simp, ?_⟩
    intro a ha b hb
    simp only [List.mem_singleton] at hb
    subst hb
    show normKey a.key ≠ normKey (normKey inc.key)
    rw [normKey_idem]
    have := List.findIdx?_eq_none_iff.mp hfind a ha
    simpa using this
  | some idx =>
    obtain ⟨hlt, hp, -⟩ := List.findIdx?_eq_some_iff_getElem.mp hfind
    have hcurkey : normKey (items[idx].key) = normKey inc.key := by simpa using hp
    have hget : items.get? idx = some items[idx] := by
      simp [List.get?_eq_getElem?, List.getElem?_eq_getElem hlt]
    have hgetD : ∀ d : KV, items.getD idx d = items[idx] := by
      intro d
      simp [List.getD, List.getElem?_eq_getElem hlt]
    simp only [hfind, hgetD]
    split
    · split <;> split <;>
        exact normKeyUnique_set h hget (by simpa [normKey_idem] using hcurkey.symm)
    · split
      · exact normKeyUnique_set h hget (by simpa [normKey_idem] using hcurkey.symm)
      · exact normKeyUnique_set h hget (by simpa [normKey_idem] using hcurkey.symm)

theorem kvFold_unique :
    ∀ (fs : List KV) (st : KVFoldState), NormKeyUnique st.items →
      NormKeyUnique (fs.foldl kvStep st).items
  | [], _, h => h
  | f :: fs, st, h => by
    simp only [List.foldl_cons]
    exact kvFold_unique fs _ (@upsertKV_unique st.items f st.contradictions h)

/-- Fact pair used by the C4 counterexample: distinct resolver keys
(`_norm_key`), identical spec-normalized keys (`normalize_key`). -/
def kvSpaceW : KV :=
  { key := "a b", value := .str "x", ts := ⟨mkRat 3 1, "2026-02-03T10:00:00+00:00"⟩,
    confidence := mkRat 1 2, source := "t1" }

/-- Second fact of the C4 counterexample. -/
def kvUnderW : KV :=
  { key := "a_b", value := .str "y", ts := ⟨mkRat 3 1, "2026-02-03T10:00:00+00:00"⟩,
    confidence := mkRat 1 2, source := "t1" }

/-- Empty passport used by concrete runs. -/
def emptyPassportW : Passport :=
  { version := "1.0", updated_at := ⟨mkRat 0 1, "2026-01-01T00:00:00+00:00"⟩,
    user_key := none, facts := [], prefs := [], entities := [], open_loops := [],
    contradictions := [], sources := [], meta := [] }

/-- **C4 counterexample.**  Merging facts with keys `"a b"` and
`"a_b"` into an empty passport stores both entries: under the
spec's normalization (`normalize_key`, which collapses non-alphanumeric
runs to `_`) the key `a_b` appears twice, because the resolver
deduplicates by `_norm_key` (trim + lowercase) only. -/
theorem mergePassportUpdate_normalizeKey_duplicate :
    ((mergePassportUpdate emptyPassportW [kvSpaceW, kvUnderW] [] [] []
        ⟨mkRat 4 1, "2026-02-04T00:00:00+00:00"⟩).1.facts.map
      (fun f => normalizeKey f.key)) = ["a_b", "a_b"] ∧
    2 ≤ ((mergePassportUpdate emptyPassportW [kvSpaceW, kvUnderW] [] [] []
        ⟨mkRat 4 1, "2026-02-04T00:00:00+00:00"⟩).1.facts.countP
      (fun f => normalizeKey f.key == "a_b")) := by
  constructor <;> decide

/-- **C4 (amended).**  With normalization read as the resolver's
`_norm_key` (trim + lowercase) — not `normalize_key`'s
underscore-collapsing — and for a base passport already satisfying the
uniqueness invariant, every passport produced by
`merge_passport_update` has each normalized fact key and each
normalized preference key at most once. -/
theorem mergePassportUpdate_key_unique (base : Passport) (facts prefs : List KV)
    (entities : List Entity) (openLoops : List OpenLoop) (now : DT)
    (hf : NormKeyUnique base.facts) (hp : NormKeyUnique base.prefs) :
    NormKeyUnique (mergePassportUpdate base facts prefs entities openLoops now).1.facts ∧
    NormKeyUnique (mergePassportUpdate base facts prefs entities openLoops now).1.prefs := by
  constructor
  · exact normKeyUnique_perm (pySort_perm kvLe _).symm
      (kvFold_unique facts _ hf)
  · exact normKeyUnique_perm (pySort_perm kvLe _).symm
      (kvFold_unique prefs _ hp)

theorem mergePassportUpdate_key_unique_witness :
    NormKeyUnique (mergePassportUpdate emptyPassportW [curW] [incEqW] [] []
      ⟨mkRat 4 1, "2026-02-04T00:00:00+00:00"⟩).1.facts ∧
    NormKeyUnique (mergePassportUpdate emptyPassportW [curW] [incEqW] [] []
      ⟨mkRat 4 1, "2026-02-04T00:00:00+00:00"⟩).1.prefs :=
  mergePassportUpdate_key_unique emptyPassportW [curW] [incEqW] [] [] _
    (by simp [emptyPassportW, NormKeyUnique]) (by simp [emptyPassportW, NormKeyUnique])

/-! ## Renderer (`render.py`) -/

/-- Textual form of a number.  Python prints floats with its own
formatting; here exact rationals are printed as `num` or `num/den`
(the rendering of numeric values is abstracted; no claim depends on
it). -/
def ratStr (q : Rat) : String :=
  if q.den = 1 then toString q.num else toString q.num ++ "/" ++ toString q.den

mutual

/-- Python `repr` on JSON data (string escaping abstracted). -/
def pyReprV : JVal → String
  | .null => "None"
  | .bool b => if b then "True" else "False"
  | .num q => ratStr q
  | .str s => "'" ++ s ++ "'"
  | .arr l => "[" ++ pyReprList l ++ "]"
  | .obj l => "\x7b" ++ pyReprObj l ++ "\x7d"

def pyReprList : List JVal → String
  | [] => ""
  | [x] => pyReprV x
  | x :: xs => pyReprV x ++ ", " ++ pyReprList xs

def pyReprObj : List (String × JVal) → String
  | [] => ""
  | [(k, v)] => "'" ++ k ++ "': " ++ pyReprV v
  | (k, v) :: xs => "'" ++ k ++ "': " ++ pyReprV v ++ ", " ++ pyReprObj xs

end

/-- Python `str` on JSON data (scalars print bare, containers via
`repr`). -/
def pyStr : JVal → String
  | .null => "None"
  | .bool b => if b then "True" else "False"
  | .num q => ratStr q
  | .str s => s
  | .arr l => pyReprV (.arr l)
  | .obj l => pyReprV (.obj l)

/-- `render._val_to_str`. -/
def valToStr (v : JVal) (maxLen : Nat) : String :=
  let s := match v with
    | .null => "null"
    | .bool b => if b then "true" else "false"
    | .num q => ratStr q
    | .str s => pyStrip s
    | v => pyStr v
  if maxLen < s.length then pyTake (maxLen - 1) s ++ "…" else s

/-- `render._score_item`: `ts.timestamp() / 1e9 + confidence * 0.5`
(the `try/except` around `ts.timestamp()` cannot fire for a datetime). -/
def scoreKV (f : KV) : Rat :=
  Rat.add (Rat.div f.ts.stamp (mkRat 1000000000 1)) (Rat.mul f.confidence (mkRat 1 2))

/-- `render._pick_top_facts` / `_pick_top_prefs`: stable sort by score
descending, first `n`. -/
def pickTopKV (l : List KV) (n : Nat) : List KV :=
  (pySort (fun a b => qle (scoreKV b) (scoreKV a)) l).take n

/-- `render._pick_top_open_loops`. -/
def pickTopLoops (l : List OpenLoop) (n : Nat) : List OpenLoop :=
  (pySort (fun a b => qle b.ts.stamp a.ts.stamp) l).take n

/-- `render._pick_top_contradictions`. -/
def pickTopContras (l : List Contradiction) (n : Nat) : List Contradiction :=
  (pySort (fun a b => qle b.ts_new.stamp a.ts_new.stamp) l).take n

/-- `render._entities_summary`. -/
def entitiesSummary (entities : List Entity) (maxItems : Nat) : List String :=
  (entities.take maxItems).map (fun e =>
    if e.type ≠ "" ∧ e.type ≠ "other" then e.name ++ " (" ++ e.type ++ ")" else e.name)

/-- The per-section caps `(f_n, p_n, e_n, o_n, c_n)` of
`export_context`. -/
structure Caps where
  f : Nat
  p : Nat
  e : Nat
  o : Nat
  c : Nat
  deriving Repr, DecidableEq

/-- The line assembly shared by the initial render and the `rebuild`
closure of `export_context`. -/
def buildLines (p : Passport) (header : String) (caps : Caps) : List String :=
  let f2 := pickTopKV p.facts caps.f
  let p2 := pickTopKV p.prefs caps.p
  let o2 := pickTopLoops p.open_loops caps.o
  let c2 := pickTopContras p.contradictions caps.c
  let e2 := p.entities.take caps.e
  let ent2 := entitiesSummary e2 caps.e
  [header] ++
  (match p.user_key with
    | some u => if u ≠ "" then ["User: " ++ u] else []
    | none => []) ++
  ["Updated: " ++ p.updated_at.iso] ++
  (if f2.isEmpty then [] else
    ["", "Facts (current beliefs):"] ++
    f2.map (fun f => "- " ++ normalizeKey f.key ++ ": " ++ valToStr f.value 220)) ++
  (if p2.isEmpty then [] else
    ["", "Preferences:"] ++
    p2.map (fun f => "- " ++ normalizeKey f.key ++ ": " ++ valToStr f.value 220)) ++
  (if ent2 = [] then [] else
    ["", "Key entities:"] ++ ent2.map (fun s => "- " ++ s)) ++
  (if o2.isEmpty then [] else
    ["", "Open loops:"] ++ o2.map (fun o => "- " ++ valToStr (.str o.item) 240)) ++
  (if c2.isEmpty then [] else
    ["", "Recent updates (contradictions resolved by time):"] ++
    c2.map (fun c =>
      "- " ++ normalizeKey c.key ++ " changed: " ++ valToStr c.old 220 ++
        " -> " ++ valToStr c.new 220))

/-- `"\n".join(lines)`. -/
def joinLines (lines : List String) : String := String.intercalate "\n" lines

/-- `join_len` inside `export_context`. -/
def joinLen (lines : List String) : Nat := (joinLines lines).length

/-- The 80-round trim loop of `export_context`: each round either
stops (joined text within budget), decrements one per-section cap in
the priority order contradictions → open loops → entities → prefs →
facts (facts never below 5) and rebuilds, or, with every cap at its
floor, hard-truncates at `bc - 1` characters plus an ellipsis. -/
def trimLoop (p : Passport) (header : String) (bc : Nat) :
    Nat → Caps → List String → String
  | 0, _, lines => joinLines lines
  | fuel + 1, caps, lines =>
    if joinLen lines ≤ bc then joinLines lines
    else if 0 < caps.c then
      let caps' := { caps with c := caps.c - 1 }
      trimLoop p header bc fuel caps' (buildLines p header caps')
    else if 0 < caps.o then
      let caps' := { caps with o := caps.o - 1 }
      trimLoop p header bc fuel caps' (buildLines p header caps')
    else if 0 < caps.e then
      let caps' := { caps with e := caps.e - 1 }
      trimLoop p header bc fuel caps' (buildLines p header caps')
    else if 0 < caps.p then
      let caps' := { caps with p := caps.p - 1 }
      trimLoop p header bc fuel caps' (buildLines p header caps')
    else if 5 < caps.f then
      let caps' := { caps with f := caps.f - 1 }
      trimLoop p header bc fuel caps' (buildLines p header caps')
    else
      pyTake (bc - 1) (joinLines lines) ++ "…"

/-- `render.export_context`.  `budget_chars` is a Python `int`; the
guard `max(400, int(budget_chars or 3000))` sends `0` to `3000` before
clamping. -/
def exportContext (p : Passport) (budget : Int) (header : String) : String :=
  let bc : Int := max 400 (if budget = 0 then 3000 else budget)
  trimLoop p header bc.toNat 80 ⟨25, 15, 12, 10, 8⟩
    (buildLines p header ⟨25, 15, 12, 10, 8⟩)

/-- Trim rounds still available before the caps bottom out at
`(5, 0, 0, 0, 0)`. -/
def stepsLeft (caps : Caps) : Nat :=
  caps.c + caps.o + caps.e + caps.p + (caps.f - 5)

theorem trimLoop_length_le (p : Passport) (header : String) (bc : Nat) (hbc : 1 ≤ bc) :
    ∀ (fuel : Nat) (caps : Caps) (lines : List String), stepsLeft caps < fuel →
      (trimLoop p header bc fuel caps lines).length ≤ bc
  | 0, _, _, h => absurd h (Nat.not_lt_zero _)
  | fuel + 1, caps, lines, h => by
    unfold trimLoop
    split
    · rename_i hle
      exact hle
    · split
      · rename_i hc
        exact trimLoop_length_le p header bc hbc fuel _ _
          (by unfold stepsLeft at h ⊢; simp only; omega)
      · split
        · rename_i ho
          exact trimLoop_length_le p header bc hbc fuel _ _
            (by unfold stepsLeft at h ⊢; simp only; omega)
        · split
          · rename_i he
            exact trimLoop_length_le p header bc hbc fuel _ _
              (by unfold stepsLeft at h ⊢; simp only; omega)
          · split
            · rename_i hp
              exact trimLoop_length_le p header bc hbc fuel _ _
                (by unfold stepsLeft at h ⊢; simp only; omega)
            · split
              · rename_i hf
                exact trimLoop_length_le p header bc hbc fuel _ _
                  (by unfold stepsLeft at h ⊢; simp only; omega)
              · have htake : (pyTake (bc - 1) (joinLines lines)).length ≤ bc - 1 := by
                  show ((joinLines lines).data.take (bc - 1)).length ≤ bc - 1
                  simp [List.length_take]
                rw [String.length_append]
                have h1 : ("…" : String).length = 1 := rfl
                omega

/-- **C5 (amended).**  For every passport and every budget `B ≥ 400`
the rendered context never exceeds `B + 1` characters (in fact `B`),
and every *nonzero* budget below 400 is clamped up to 400.  (A budget
of exactly 0 is not clamped to 400: `int(budget_chars or 3000)` maps it
to the 3000-character default first — see the counterexample.) -/
theorem exportContext_budget (p : Passport) (B : Int) (header : String) :
    (400 ≤ B → ((exportContext p B header).length : Int) ≤ B + 1) ∧
    (B < 400 → B ≠ 0 → exportContext p B header = exportContext p 400 header) := by
  have hexp : ∀ C : Int, exportContext p C header =
      trimLoop p header (max 400 (if C = 0 then 3000 else C)).toNat 80 ⟨25, 15, 12, 10, 8⟩
        (buildLines p header ⟨25, 15, 12, 10, 8⟩) := fun C => rfl
  constructor
  · intro hB
    rw [hexp]
    have hne : B ≠ 0 := by omega
    have hm : max 400 (if B = 0 then 3000 else B) = B := by
      rw [if_neg hne]; omega
    rw [hm]
    have hb1 : 1 ≤ B.toNat := by omega
    have hlt : stepsLeft ⟨25, 15, 12, 10, 8⟩ < 80 := by decide
    have hle := trimLoop_length_le p header B.toNat hb1 80 ⟨25, 15, 12, 10, 8⟩
      (buildLines p header ⟨25, 15, 12, 10, 8⟩) hlt
    omega
  · intro h1 h2
    rw [hexp, hexp]
    have hm : (max 400 (if B = 0 then 3000 else B)).toNat
        = (max 400 (if (400 : Int) = 0 then 3000 else (400 : Int))).toNat := by
      rw [if_neg h2]
      norm_num
      omega
    rw [hm]

/-- A 220-character value, to inflate rendered fact lines. -/
def longValW : String := ⟨List.replicate 220 'x'⟩

/-- Passport whose render exceeds 400 characters but not 3000. -/
def renderPassW : Passport :=
  { emptyPassportW with facts :=
      [{ key := "k1", value := .str longValW, ts := ⟨mkRat 0 1, "1970-01-01T00:00:00+00:00"⟩,
         confidence := mkRat 1 2, source := "t1" },
       { key := "k2", value := .str longValW, ts := ⟨mkRat 0 1, "1970-01-01T00:00:00+00:00"⟩,
         confidence := mkRat 1 2, source := "t1" }] }

set_option maxRecDepth 200000 in
/-- **C5 counterexample.**  A budget of 0 is *not* clamped up to 400:
`max(400, int(budget_chars or 3000))` turns 0 into the 3000-character
default, so the render differs from the 400-budget render and exceeds
400 characters. -/
theorem exportContext_budget_zero_not_clamped :
    exportContext renderPassW 0 "SOZOGRAPH PASSPORT v1" ≠
      exportContext renderPassW 400 "SOZOGRAPH PASSPORT v1" ∧
    400 < (exportContext renderPassW 0 "SOZOGRAPH PASSPORT v1").length := by
  constructor <;> with_unfolding_all decide

theorem exportContext_budget_witness :
    ((exportContext emptyPassportW 500 "SOZOGRAPH PASSPORT v1").length : Int) ≤ 501 ∧
    exportContext emptyPassportW 250 "SOZOGRAPH PASSPORT v1" =
      exportContext emptyPassportW 400 "SOZOGRAPH PASSPORT v1" :=
  ⟨(exportContext_budget emptyPassportW 500 "SOZOGRAPH PASSPORT v1").1 (by decide),
   (exportContext_budget emptyPassportW 250 "SOZOGRAPH PASSPORT v1").2
     (by decide) (by decide)⟩

/-! ## Interaction (`interaction.py`) -/

/-- `interaction.Interaction`. -/
structure Interaction where
  id : Option String
  ts : DT
  type : String
  text : String
  source : Option String
  data : Option JVal
  meta : List (String × JVal)
  deriving Repr

/-- `Interaction.short_text`.  The trailing literal in `interaction.py`
is the three-character mojibake `"â€¦"` (bytes `c3a2 e282ac c2a6`), not
the single-character ellipsis the other modules use. -/
def shortText (it : Interaction) (maxChars : Int) : String :=
  if (it.text.length : Int) ≤ maxChars then it.text
  else pySliceTo (maxChars - 1) it.text ++ "â€¦"

/-- Interaction used by the C9 evaluation. -/
def interW : Interaction :=
  { id := none, ts := ⟨mkRat 0 1, "1970-01-01T00:00:00+00:00"⟩, type := "transcript",
    text := "abcde", source := none, data := none, meta := [] }

/-- **C9 evaluation.**  `short_text` truncated at `max_chars = 4`
returns six characters — the mojibake suffix is three characters long,
so every truncated result exceeds the limit by two. -/
theorem shortText_exceeds_limit :
    shortText interW 4 = "abcâ€¦" ∧
    (shortText interW 4).length = 6 ∧
    ("â€¦" : String).length = 3 := by
  refine ⟨?_, ?_, ?_⟩ <;> decide

/-! ## Timestamp parsing (`utils.parse_ts`) -/

/-- Days from the civil epoch 1970-01-01 (standard civil-calendar
conversion). -/
def daysFromCivil (y m d : Int) : Int :=
  let y := if m ≤ 2 then y - 1 else y
  let era := (if 0 ≤ y then y else y - 399) / 400
  let yoe := y - era * 400
  let mp := (m + 9) % 12
  let doy := (153 * mp + 2) / 5 + d - 1
  let doe := yoe * 365 + yoe / 4 - yoe / 100 + doy
  era * 146097 + doe - 719468

def digitVal (c : Char) : Option Nat :=
  if 48 ≤ c.toNat ∧ c.toNat ≤ 57 then some (c.toNat - 48) else none

def twoDigits (a b : Char) : Option Nat := do
  let x ← digitVal a
  let y ← digitVal b
  pure (x * 10 + y)

/-- Modelled from the spec: ISO-8601 timestamp parsing ("an ISO-8601
string (with `Z` accepted as `+00:00`)").  `datetime.fromisoformat` is
standard-library code outside this repository; the canonical forms
`YYYY-MM-DDTHH:MM:SS` and `YYYY-MM-DDTHH:MM:SS+00:00` (space separator
also allowed) are parsed; anything else is treated as unparseable.
The parsed instant keeps the original string as its ISO rendering. -/
def isoParse (s : String) : Option DT :=
  let core : List Char → Option Rat := fun l =>
    match l with
    | [y1, y2, y3, y4, '-', m1, m2, '-', d1, d2, sep, h1, h2, ':', i1, i2, ':', s1, s2] =>
      if sep = 'T' ∨ sep = ' ' then do
        let ya ← twoDigits y1 y2
        let yb ← twoDigits y3 y4
        let mo ← twoDigits m1 m2
        let dd ← twoDigits d1 d2
        let hh ← twoDigits h1 h2
        let mi ← twoDigits i1 i2
        let ss ← twoDigits s1 s2
        pure (mkRat (daysFromCivil (ya * 100 + yb) mo dd * 86400 +
          hh * 3600 + mi * 60 + ss) 1)
      else none
    | _ => none
  match core s.data with
  | some q => some ⟨q, s⟩
  | none =>
    match s.data.reverse with
    | '0' :: '0' :: ':' :: '0' :: '0' :: '+' :: rest =>
      match core rest.reverse with
      | some q => some ⟨q, s⟩
      | none => none
    | _ => none

/-- `utils.parse_ts` on JSON input: numbers are unix seconds (or
milliseconds above 10¹²), strings are ISO-8601 with `Z` rewritten to
`+00:00`; everything else is unparseable.  (`datetime` inputs cannot
occur in JSON payloads; the ISO rendering of numeric timestamps is
abstracted as an empty string, which no claim inspects.) -/
def parseTsJ : JVal → Option DT
  | .num q =>
    if qlt (mkRat 1000000000000 1) q then some ⟨Rat.div q (mkRat 1000 1), ""⟩
    else some ⟨q, ""⟩
  | .str s =>
    isoParse ⟨s.data.foldr (fun c acc =>
      if c = 'Z' then '+' :: '0' :: '0' :: ':' :: '0' :: '0' :: acc else c :: acc) []⟩
  | _ => none

/-! ## Extractor validation (`extractor._validate_and_normalize`, C7) -/

/-- Python truthiness on JSON data. -/
def jFalsy : JVal → Bool
  | .null => true
  | .bool b => !b
  | .num q => q == 0
  | .str s => s == ""
  | .arr l => l.isEmpty
  | .obj l => l.isEmpty

/-- `d.get(k, default)`. -/
def dictGetD (d : List (String × JVal)) (k : String) (dflt : JVal) : JVal :=
  (dictGet d k).getD dflt

/-- `item[k]`: `KeyError` when the mapping lacks the key, `TypeError`
when the item is not a mapping (string indices must be integers, etc.).
Exactly these exceptions escape `_validate_and_normalize`, because its
`except` clauses only catch `ValidationError`. -/
def jIndex (item : JVal) (k : String) : Except String JVal :=
  match item with
  | .obj l =>
    match dictGet l k with
    | some v => .ok v
    | none => .error ("KeyError: " ++ k)
  | _ => .error "TypeError: item is not subscriptable by str"

/-- `item.get(k, default)` (only mappings reach the `.get` calls: the
preceding `item[...]` raises first for anything else). -/
def jItemGetD (item : JVal) (k : String) (dflt : JVal) : JVal :=
  match item with
  | .obj l => dictGetD l k dflt
  | _ => dflt

/-- Python `for item in xs`: arrays yield elements, mappings yield
their keys, strings yield 1-character strings, scalars raise. -/
def jIterate : JVal → Except String (List JVal)
  | .arr l => .ok l
  | .obj l => .ok (l.map (fun kv => .str kv.1))
  | .str s => .ok (s.data.map (fun c => .str ⟨[c]⟩))
  | _ => .error "TypeError: object is not iterable"

/-- `float(x)` (numeric strings are treated as unparseable in this
model; no claim exercises them). -/
def pyFloat : JVal → Except String Rat
  | .num q => .ok q
  | .bool b => .ok (if b then 1 else 0)
  | .str _ => .error "ValueError: could not convert string to float"
  | _ => .error "TypeError: float() argument"

/-- `normalize_key(item["key"])` on a JSON value: falsy values
normalize to the empty string (`if not value: return ""`), non-string
truthy values raise `AttributeError` at `.strip()`. -/
def normalizeKeyJ (v : JVal) : Except String String :=
  if jFalsy v then .ok ""
  else match v with
    | .str s => .ok (normalizeKey s)
    | _ => .error "AttributeError: strip"

/-- Pydantic validation of `Fact`/`Preference` construction: the key
validator strips and rejects empty keys, `confidence` must lie in
`[0, 1]`, `source` must be non-empty, and an explicit `ts=None` is
rejected (the `default_factory` only fires when the field is absent,
and the extractor always passes `ts=... or None`).  `none` = the item
is dropped by the `except ValidationError` handler. -/
def mkKV (key : String) (value : JVal) (conf : Rat) (source : String)
    (ts : Option DT) : Option KV :=
  let key := pyStrip key
  if key = "" then none
  else if ¬ (qle 0 conf = true ∧ qle conf 1 = true) then none
  else if source = "" then none
  else match ts with
    | none => none
    | some t => some ⟨key, value, t, conf, source⟩

/-- The `EntityType` literal values of `schema.py`. -/
def entityTypes : List String :=
  ["person", "organization", "project", "product", "place", "tool", "skill",
   "concept", "other"]

/-- Pydantic validation of `Entity` construction: `name` a non-empty
string, `type` one of the literals, `aliases` a list of strings
(cleaned by the `_clean_aliases` validator: strip, drop empties,
case-insensitive dedupe preserving order). -/
def mkEntityJ (name typ aliases : JVal) : Option Entity :=
  match name with
  | .str n =>
    if n = "" then none
    else match typ with
      | .str t =>
        if entityTypes.contains t then
          match aliases with
          | .arr l =>
            match l.mapM (fun v => match v with | .str s => some s | _ => none) with
            | some strs => some ⟨n, t, dedupeCI strs⟩
            | none => none
          | _ => none
        else none
      | _ => none
  | _ => none

/-- Pydantic validation of `OpenLoop` construction. -/
def mkOpenLoopJ (item : JVal) (source : String) (ts : Option DT) : Option OpenLoop :=
  match item with
  | .str s =>
    if s = "" ∨ source = "" then none
    else match ts with
      | none => none
      | some t => some ⟨s, t, source⟩
  | _ => none

/-- Result shape of `_validate_and_normalize`. -/
structure ExtractOut where
  facts : List KV
  prefs : List KV
  entities : List Entity
  open_loops : List OpenLoop
  deriving Repr

/-- One facts/prefs item of `_validate_and_normalize`: arguments are
evaluated in source order (`item["key"]`, `item.get("value")`,
`float(item.get("confidence", 0.7))`, `source_id`,
`parse_ts(item.get("ts")) or None`), then pydantic validates; a
`ValidationError` drops the item, any other exception escapes. -/
def validateKVItem (sourceId : String) (acc : List KV) (item : JVal) :
    Except String (List KV) := do
  let keyV ← jIndex item "key"
  let key ← normalizeKeyJ keyV
  let value := jItemGetD item "value" .null
  let conf ← pyFloat (jItemGetD item "confidence" (.num (mkRat 7 10)))
  let ts := parseTsJ (jItemGetD item "ts" .null)
  match mkKV key value conf sourceId ts with
  | some f => .ok (acc ++ [f])
  | none => .ok acc

def validateEntityItem (acc : List Entity) (item : JVal) :
    Except String (List Entity) := do
  let nameV ← jIndex item "name"
  let typV := jItemGetD item "type" (.str "other")
  let aliasesRaw := jItemGetD item "aliases" .null
  let aliasesV := if jFalsy aliasesRaw then .arr [] else aliasesRaw
  match mkEntityJ nameV typV aliasesV with
  | some e => .ok (acc ++ [e])
  | none => .ok acc

def validateOpenLoopItem (sourceId : String) (acc : List OpenLoop) (item : JVal) :
    Except String (List OpenLoop) := do
  let itemV ← jIndex item "item"
  let ts := parseTsJ (jItemGetD item "ts" .null)
  match mkOpenLoopJ itemV sourceId ts with
  | some o => .ok (acc ++ [o])
  | none => .ok acc

/-- `extractor._validate_and_normalize`. -/
def validateAndNormalize (data : List (String × JVal)) (sourceId : String) :
    Except String ExtractOut := do
  let factsItems ← jIterate (dictGetD data "facts" (.arr []))
  let facts ← factsItems.foldlM (validateKVItem sourceId) []
  let prefsItems ← jIterate (dictGetD data "prefs" (.arr []))
  let prefs ← prefsItems.foldlM (validateKVItem sourceId) []
  let entityItems ← jIterate (dictGetD data "entities" (.arr []))
  let entities ← entityItems.foldlM validateEntityItem []
  let loopItems ← jIterate (dictGetD data "open_loops" (.arr []))
  let loops ← loopItems.foldlM (validateOpenLoopItem sourceId) []
  pure ⟨facts, prefs, entities, loops⟩

/-- Extractor payload for the C7 evaluation: one fact missing its
required `key`, followed by a perfectly valid fact. -/
def c7PayloadW : List (String × JVal) :=
  [("facts", .arr
    [.obj [("value", .str "x")],
     .obj [("key", .str "role"), ("value", .str "developer"),
           ("ts", .num (mkRat 1700000000 1)), ("confidence", .num (mkRat 9 10))]])]

/-- The same payload with only the valid fact. -/
def c7GoodPayloadW : List (String × JVal) :=
  [("facts", .arr
    [.obj [("key", .str "role"), ("value", .str "developer"),
           ("ts", .num (mkRat 1700000000 1)), ("confidence", .num (mkRat 9 10))]])]

/-- **C7 evaluation.**  A fact item missing its required `key` raises
`KeyError` (only `ValidationError` is caught), so the whole batch —
including the valid second item — is lost; the valid item alone would
have been returned. -/
theorem validateAndNormalize_keyerror_fails_batch :
    validateAndNormalize c7PayloadW "t1" = .error "KeyError: key" ∧
    validateAndNormalize c7GoodPayloadW "t1" =
      .ok ⟨[⟨"role", .str "developer", ⟨mkRat 1700000000 1, ""⟩, mkRat 9 10, "t1"⟩],
           [], [], []⟩ := by
  constructor
  · rfl
  · rfl

/-! ## Ingest coalescer (`ingest.py`, adapters, C8) -/

/-- Process-level context for operations whose values the repository
does not compute itself: `hash()` (randomized per process), the hex
digest of `utils.sha256_json` (hashlib), and `utcnow()`.  Every
structural decision of `coerce_to_interactions` is independent of these
values. -/
structure PyEnv where
  hashStr : String → Int
  sha : JVal → String
  now : DT

/-- `utils.pick_first`: first listed key whose value is not one of
`None, "", [], {}`. -/
def pickFirst (d : List (String × JVal)) : List String → Option JVal
  | [] => none
  | k :: rest =>
    match dictGet d k with
    | some v =>
      if jvalBeq v .null || jvalBeq v (.str "") || jvalBeq v (.arr []) ||
          jvalBeq v (.obj []) then pickFirst d rest
      else some v
    | none => pickFirst d rest

mutual

/-- `utils.safe_stringify` (default limits 20/20/500; nested values are
rendered with the default key/list limits and the caller's `max_str`,
as in the source). -/
def safeStringify (maxKeys maxList maxStr : Nat) : JVal → String
  | .null => ""
  | .str s => if s.length ≤ maxStr then s else pyTake (maxStr - 1) s ++ "…"
  | .num q => ratStr q
  | .bool b => if b then "True" else "False"
  | .arr l =>
    "[" ++ String.intercalate ", " ((ssList maxStr l).take maxList) ++ "]" ++
      (if maxList < l.length then " …" else "")
  | .obj l =>
    String.intercalate "; " ((ssObj maxStr l).take maxKeys ++
      (if maxKeys < l.length then ["…"] else []))

def ssList (maxStr : Nat) : List JVal → List String
  | [] => []
  | v :: vs => safeStringify 20 20 maxStr v :: ssList maxStr vs

def ssObj (maxStr : Nat) : List (String × JVal) → List String
  | [] => []
  | (k, v) :: kvs => (k ++ ": " ++ safeStringify 20 20 maxStr v) :: ssObj maxStr kvs

end

/-- Pydantic validation of `Interaction` construction: `text` has
`min_length=1` and an explicit `ts=None` (the adapters' `ts=ts or
None`) is rejected; `none` never reaches the constructor for the
transcript/generic paths, which substitute `utcnow()` first. -/
def mkInteraction (id : Option String) (ts : Option DT) (type : String)
    (text : String) (source : Option String) (data : Option JVal)
    (meta : List (String × JVal)) : Except String Interaction :=
  if text = "" then .error "ValidationError: text"
  else match ts with
    | some t => .ok ⟨id, t, type, text, source, data, meta⟩
    | none => .error "ValidationError: ts"

/-- First non-falsy JSON value of an option chain. -/
def jTruthy : Option JVal → Option JVal
  | some v => if jFalsy v then none else some v
  | none => none

/-- `meta.get(k)` used as a string pointer (`or`-chains skip falsy
values; non-string pointers are not modelled — no claim uses them). -/
def mGetStr (meta : List (String × JVal)) (k : String) : Option String :=
  match dictGet meta k with
  | some (.str s) => if s = "" then none else some s
  | _ => none

/-- `meta.get(k, default)` for string-valued fields with a default used
only when the key is absent. -/
def mGetStrD (meta : List (String × JVal)) (k : String) (d : String) : String :=
  match dictGet meta k with
  | some (.str s) => s
  | _ => d

/-- `path.replace("/", "_")`. -/
def slashToUnderscore (s : String) : String :=
  ⟨s.data.map (fun c => if c = '/' then '_' else c)⟩

/-- `ingest.make_source_ref` (the `parse_ts(ts) or utcnow()` guard:
callers pass an already-parsed datetime or nothing). -/
def makeSourceRef (env : PyEnv) (sourceId kind : String) (payload : JVal)
    (ts : Option DT) (srcPointer : Option String) : SourceRef :=
  ⟨sourceId, kind, ts.getD env.now, some (env.sha payload), srcPointer⟩

/-- `f"{tag}{abs(hash(s)) % 10_000_000}"`. -/
def hashTok (env : PyEnv) (tag : String) (s : String) : String :=
  tag ++ toString ((env.hashStr s).natAbs % 10000000)

/-- Timestamp probe field list of the document-store adapter
(`adapters/firestore.py`). -/
def fsTsFields : List String :=
  ["updatedAt", "updated_at", "createdAt", "created_at", "timestamp", "date"]

/-- Text probe field list of the document-store adapter. -/
def fsTextFields : List String :=
  ["text", "message", "content", "description", "notes", "summary", "title",
   "name", "status"]

/-- Text probe field list of the relational-row adapter
(`adapters/supabase.py`: the document-store set plus `action`,
`event`). -/
def sbTextFields : List String := fsTextFields ++ ["action", "event"]

/-- Timestamp probe field list of the relational-row adapter. -/
def sbTsFields : List String :=
  ["updated_at", "created_at", "timestamp", "date", "updatedAt", "createdAt"]

/-- `adapters/firestore.firestore_to_interaction`. -/
def firestoreToInteraction (env : PyEnv) (doc : List (String × JVal))
    (source : Option String) (docId : Option JVal) : Except String Interaction :=
  let ts := (pickFirst doc fsTsFields).bind parseTsJ
  let text :=
    match pickFirst doc fsTextFields with
    | some v => pyStr v
    | none => safeStringify 20 20 500 (.obj doc)
  let idV := jTruthy docId |>.orElse (fun _ => jTruthy (dictGet doc "id"))
    |>.orElse (fun _ => jTruthy (dictGet doc "_id"))
  let idS :=
    match idV with
    | some v => pyStr v
    | none => pyTake 16 (env.sha (.obj doc))
  mkInteraction (some idS) ts "firestore" text source (some (.obj doc)) []

/-- `adapters/rtdb.rtdb_to_interaction`. -/
def rtdbToInteraction (env : PyEnv) (value : JVal) (path : Option String)
    (nodeId : Option String) : Except String Interaction :=
  let ts :=
    match value with
    | .obj d => (pickFirst d fsTsFields).bind parseTsJ
    | _ => none
  let text := safeStringify 20 20 500 value
  let idOpt :=
    match nodeId with
    | some n => if n = "" then none else some n
    | none => none
  let idOpt := idOpt.orElse (fun _ => path.map slashToUnderscore)
  let idOpt :=
    match idOpt with
    | some s => if s = "" then none else some s
    | none => none
  let idS :=
    match idOpt with
    | some s => s
    | none => pyTake 16 (env.sha (.obj [("path",
        match path with | some q => .str q | none => .null), ("value", value)]))
  let data :=
    match value with
    | .obj d => JVal.obj d
    | v => .obj [("value", v)]
  mkInteraction (some idS) ts "rtdb" text (path.map (fun q => "rtdb:" ++ q))
    (some data) []

/-- `adapters/supabase.supabase_row_to_interaction`. -/
def supabaseRowToInteraction (env : PyEnv) (row : List (String × JVal))
    (table : Option String) (source : Option String) (rowId : Option JVal) :
    Except String Interaction :=
  let ts := (pickFirst row sbTsFields).bind parseTsJ
  let text :=
    match pickFirst row sbTextFields with
    | some v => pyStr v
    | none => safeStringify 20 20 500 (.obj row)
  let idV := jTruthy rowId |>.orElse (fun _ => jTruthy (dictGet row "id"))
    |>.orElse (fun _ => jTruthy (dictGet row "_id"))
  let idS :=
    match idV with
    | some v => pyStr v
    | none => pyTake 16 (env.sha (.obj row))
  let src := source.orElse (fun _ => table.map (fun t => "supabase:" ++ t))
  let meta :=
    match table with
    | some t => [("table", JVal.str t)]
    | none => []
  mkInteraction (some idS) ts "supabase" text src (some (.obj row)) meta

/-- `ingest._looks_like_rtdb_envelope`. -/
def looksLikeRtdb (d : List (String × JVal)) : Bool :=
  (dictGet d "path").isSome && ((dictGet d "value").isSome || (dictGet d "data").isSome)

/-- `ingest._looks_like_supabase_envelope`. -/
def looksLikeSupabase (d : List (String × JVal)) : Bool :=
  (dictGet d "table").isSome && ((dictGet d "row").isSome || (dictGet d "data").isSome)

/-- `ingest._guess_hint`. -/
def guessHint (d : List (String × JVal)) : String :=
  if looksLikeRtdb d then "rtdb"
  else if looksLikeSupabase d then "supabase"
  else "firestore"

/-- `d.setdefault(k, v)`. -/
def dictSetDefault (d : List (String × JVal)) (k : String) (v : JVal) :
    List (String × JVal) :=
  if (dictGet d k).isSome then d else d ++ [(k, v)]

/-- `(hint or item.get("_hint") or _guess_hint(item))`: a non-string
truthy `_hint` raises at the following `.lower()`. -/
def usedHintOf (hint : Option String) (d : List (String × JVal)) :
    Except String String :=
  let fromItem : Except String String :=
    match jTruthy (dictGet d "_hint") with
    | some (.str s) => .ok s
    | some _ => .error "AttributeError: lower"
    | none => .ok (guessHint d)
  match hint with
  | some h => if h = "" then fromItem else .ok h
  | none => fromItem

mutual

/-- `ingest.coerce_to_interactions`: shape dispatch over string, list,
mapping (RTDB / Supabase / Firestore-batch / Firestore-single /
generic-dict), and scalar fallback.  Uncaught exceptions (pydantic
validation errors in the adapters) propagate to the caller as
`.error`. -/
def coerceToInteractions (env : PyEnv) :
    JVal → Option String → List (String × JVal) →
      Except String (List Interaction × List SourceRef)
  | .str s, _, meta => do
    let srcId := (mGetStr meta "source_id").getD (hashTok env "t" s)
    let srcPtr := (mGetStr meta "source").orElse (fun _ => mGetStr meta "source_pointer")
    let ts := (parseTsJ (dictGetD meta "ts" .null)).getD env.now
    let it ← mkInteraction (mGetStr meta "id") (some ts) (mGetStrD meta "type" "transcript")
      s srcPtr none meta
    .ok ([it], [makeSourceRef env srcId (mGetStrD meta "kind" "transcript")
      (.obj [("text", .str s), ("meta", .obj meta)]) (some ts) srcPtr])
  | .arr l, hint, meta => coerceList env l hint meta 0
  | .obj d, hint, meta => do
    let raw ← usedHintOf hint d
    let usedHint := pyStrip (pyLower raw)
    if usedHint = "rtdb" ∨ looksLikeRtdb d then do
      let path := (match jTruthy (dictGet d "path") with
          | some (.str s) => some s
          | _ => none).orElse
        (fun _ => (mGetStr meta "source").orElse (fun _ => mGetStr meta "source_pointer"))
      let value := dictGetD d "value" (dictGetD d "data" .null)
      let it ← rtdbToInteraction env value path none
      let srcId := (mGetStr meta "source_id").getD (hashTok env "r" (env.sha (.obj d)))
      .ok ([it], [makeSourceRef env srcId "rtdb" (.obj d) (some it.ts) it.source])
    else if usedHint = "supabase" ∨ looksLikeSupabase d then do
      let table := (match jTruthy (dictGet d "table") with
          | some (.str s) => some s
          | _ => none).orElse (fun _ => mGetStr meta "table")
      let row := dictGetD d "row" (dictGetD d "data" (.obj d))
      let rowD := match row with
        | .obj rl => rl
        | v => [("value", v)]
      let it ← supabaseRowToInteraction env rowD table none none
      let srcId := (mGetStr meta "source_id").getD (hashTok env "s" (env.sha (.obj d)))
      .ok ([it], [makeSourceRef env srcId "supabase" (.obj d) (some it.ts) it.source])
    else if usedHint = "firestore" then
      if d.all (fun kv => match kv.2 with | .obj _ => true | _ => false) ∧
          d.any (fun kv => kv.1 ≠ "") then do
        let colPath := (mGetStr meta "source").orElse (fun _ => mGetStr meta "collection_path")
        let its ← d.mapM (fun kv =>
          match kv.2 with
          | .obj dl => firestoreToInteraction env dl
              (colPath.map (fun cp => "firestore:" ++ cp ++ "/" ++ kv.1))
              (some (.str kv.1))
          | _ => .error "unreachable: batch values are mappings")
        let out := its.map (fun it =>
          let srcId := (mGetStr meta "source_id").getD
            (hashTok env "f" (env.sha (it.data.getD .null)))
          (it, makeSourceRef env srcId "firestore" (it.data.getD .null)
            (some it.ts) it.source))
        .ok (out.map (fun x => x.1), out.map (fun x => x.2))
      else do
        let docId := (jTruthy (dictGet d "id")).orElse
          (fun _ => jTruthy (dictGet meta "id"))
        let srcPtr := (mGetStr meta "source").orElse (fun _ => mGetStr meta "source_pointer")
        let it ← firestoreToInteraction env d srcPtr docId
        let srcId := (mGetStr meta "source_id").getD (hashTok env "f" (env.sha (.obj d)))
        .ok ([it], [makeSourceRef env srcId "firestore" (.obj d) (some it.ts) it.source])
    else do
      let text := safeStringify 20 20 500 (.obj d)
      let ts := (parseTsJ (dictGetD d "ts" .null)).getD env.now
      let srcId := (mGetStr meta "source_id").getD (hashTok env "u" (env.sha (.obj d)))
      let srcPtr := (mGetStr meta "source").orElse (fun _ => mGetStr meta "source_pointer")
      let idS :=
        match (jTruthy (dictGet meta "id")).orElse (fun _ => jTruthy (dictGet d "id")) with
        | some v => pyStr v
        | none => pyTake 16 (env.sha (.obj d))
      let it ← mkInteraction (some idS) (some ts) (mGetStrD meta "type" "unknown")
        text srcPtr (some (.obj d)) meta
      .ok ([it], [makeSourceRef env srcId (mGetStrD meta "kind" "unknown") (.obj d)
        (some ts) srcPtr])
  | v, _, meta => do
    let text := safeStringify 20 20 500 v
    let ts := (parseTsJ (dictGetD meta "ts" .null)).getD env.now
    let srcId := (mGetStr meta "source_id").getD (hashTok env "x" (pyStr v))
    let srcPtr := (mGetStr meta "source").orElse (fun _ => mGetStr meta "source_pointer")
    let idS := (mGetStr meta "id").getD
      (pyTake 16 (env.sha (.obj [("v", .str (pyStr v))])))
    let it ← mkInteraction (some idS) (some ts) (mGetStrD meta "type" "unknown")
      text srcPtr (some (.obj [("value", .str (pyStr v))])) meta
    .ok ([it], [makeSourceRef env srcId (mGetStrD meta "kind" "unknown")
      (.obj [("value", .str (pyStr v)), ("meta", .obj meta)]) (some ts) srcPtr])

/-- The list branch of `coerce_to_interactions`: per-element recursion
with a per-index `source_id` default. -/
def coerceList (env : PyEnv) :
    List JVal → Option String → List (String × JVal) → Nat →
      Except String (List Interaction × List SourceRef)
  | [], _, _, _ => .ok ([], [])
  | x :: xs, hint, meta, idx => do
    let base :=
      match dictGet meta "source_id" with
      | some v => pyStr v
      | none => "h"
    let subMeta := dictSetDefault meta "source_id" (.str (base ++ "_" ++ toString idx))
    let (i1, s1) ← coerceToInteractions env x hint subMeta
    let (i2, s2) ← coerceList env xs hint meta (idx + 1)
    .ok (i1 ++ i2, s1 ++ s2)

end

/-- Concrete environment for the C8 evaluation (the choice of hash and
digest values cannot affect whether the call raises). -/
def envW : PyEnv :=
  { hashStr := fun _ => 0,
    sha := fun _ => "0000000000000000000000000000000000000000000000000000000000000000",
    now := ⟨mkRat 1700000000 1, "2023-11-14T22:13:20+00:00"⟩ }

/-- **C8 evaluation.**  `coerce_to_interactions` raises a pydantic
`ValidationError` instead of returning: a mapping with no recognized
timestamp field reaches `Interaction(ts=None)` through the
document-store adapter's `ts=ts or None`, the empty mapping coalesces
to empty text, and the empty transcript string violates
`text: min_length=1`. -/
theorem coerceToInteractions_raises :
    coerceToInteractions envW (.obj [("foo", .str "bar")]) none [] =
      .error "ValidationError: ts" ∧
    coerceToInteractions envW (.obj []) none [] = .error "ValidationError: text" ∧
    coerceToInteractions envW (.str "") none [] = .error "ValidationError: text" := by
  refine ⟨?_, ?_, ?_⟩ <;> rfl

/-! ## Order properties of the sort comparators (for C3) -/

theorem charEq_of_toNat {x y : Char} (h : x.toNat = y.toNat) : x = y :=
  Char.ext (UInt32.ext h)

theorem strLt_go_trans :
    ∀ a b c : List Char, strLt.go a b = true → strLt.go b c = true → strLt.go a c = true
  | a, [], _, hab, _ => by cases a <;> simp [strLt.go] at hab
  | _, _ :: _, [], _, hbc => by simp [strLt.go] at hbc
  | [], _ :: _, _ :: _, _, _ => by simp [strLt.go]
  | x :: xs, y :: ys, z :: zs, hab, hbc => by
    simp only [strLt.go] at hab hbc ⊢
    by_cases h1 : x.toNat < y.toNat
    · by_cases h2 : y.toNat < z.toNat
      · rw [if_pos (by omega)]
      · simp only [if_neg h2] at hbc
        by_cases h3 : y.toNat = z.toNat
        · rw [if_pos (by omega)]
        · simp [h3] at hbc
    · simp only [if_neg h1] at hab
      by_cases h1' : x.toNat = y.toNat
      · simp only [if_pos h1'] at hab
        by_cases h2 : y.toNat < z.toNat
        · rw [if_pos (by omega)]
        · simp only [if_neg h2] at hbc
          by_cases h3 : y.toNat = z.toNat
          · rw [if_pos h3] at hbc
            rw [if_neg (by omega), if_pos (by omega)]
            exact strLt_go_trans xs ys zs hab hbc
          · simp [h3] at hbc
      · simp [h1'] at hab

theorem strLt_go_conn :
    ∀ a b : List Char, strLt.go a b = false → strLt.go b a = false → a = b
  | [], [], _, _ => rfl
  | [], _ :: _, hab, _ => by simp [strLt.go] at hab
  | _ :: _, [], _, hba => by simp [strLt.go] at hba
  | x :: xs, y :: ys, hab, hba => by
    simp only [strLt.go] at hab hba
    by_cases h1 : x.toNat < y.toNat
    · simp [h1] at hab
    · by_cases h2 : y.toNat < x.toNat
      · simp [h2] at hba
      · have hxy : x.toNat = y.toNat := by omega
        simp only [if_neg h1, if_pos hxy, if_neg h2, if_pos hxy.symm] at hab hba
        rw [charEq_of_toNat hxy, strLt_go_conn xs ys hab hba]

theorem strLt_trans {a b c : String} (h1 : strLt a b = true) (h2 : strLt b c = true) :
    strLt a c = true :=
  strLt_go_trans a.data b.data c.data h1 h2

theorem strLt_conn {a b : String} (h1 : strLt a b = false) (h2 : strLt b a = false) :
    a = b := by
  cases a with
  | mk la =>
    cases b with
    | mk lb =>
      rw [strLt_go_conn la lb h1 h2]

theorem qle_trans {a b c : Rat} (h1 : qle a b = true) (h2 : qle b c = true) :
    qle a c = true :=
  qle_iff.mpr (le_trans (qle_iff.mp h1) (qle_iff.mp h2))

theorem qle_total (a b : Rat) : (qle a b || qle b a) = true := by
  rcases le_total a b with h | h
  · simp [qle_iff.mpr h]
  · simp [qle_iff.mpr h]

theorem qlt_conn {a b : Rat} (h1 : qlt a b = false) (h2 : qlt b a = false) : a = b := by
  have n1 : ¬ a < b := fun h => by simp [qlt_iff.mpr h] at h1
  have n2 : ¬ b < a := fun h => by simp [qlt_iff.mpr h] at h2
  exact le_antisymm (not_lt.mp n2) (not_lt.mp n1)

theorem qlt_trans {a b c : Rat} (h1 : qlt a b = true) (h2 : qlt b c = true) :
    qlt a c = true :=
  qlt_iff.mpr (lt_trans (qlt_iff.mp h1) (qlt_iff.mp h2))

/-- Transitivity of the `(String key, tie-break)` comparators. -/
theorem strKeyLex_trans {κ : Type} (le2 : κ → κ → Bool)
    (hle2 : ∀ x y z, le2 x y = true → le2 y z = true → le2 x z = true)
    (ka kb kc : String) (ta tb tc : κ)
    (h1 : lexLe (strLt ka kb) (strEq ka kb) (le2 ta tb) = true)
    (h2 : lexLe (strLt kb kc) (strEq kb kc) (le2 tb tc) = true) :
    lexLe (strLt ka kc) (strEq ka kc) (le2 ta tc) = true := by
  unfold lexLe strEq at h1 h2 ⊢
  rcases Bool.or_eq_true_iff.mp h1 with hl1 | he1
  · rcases Bool.or_eq_true_iff.mp h2 with hl2 | he2
    · simp [strLt_trans hl1 hl2]
    · obtain ⟨heq, -⟩ := Bool.and_eq_true_iff.mp he2
      rw [beq_iff_eq.mp heq] at hl1
      simp [hl1]
  · obtain ⟨heq1, ht1⟩ := Bool.and_eq_true_iff.mp he1
    rw [beq_iff_eq.mp heq1]
    rcases Bool.or_eq_true_iff.mp h2 with hl2 | he2
    · simp [hl2]
    · obtain ⟨heq2, ht2⟩ := Bool.and_eq_true_iff.mp he2
      simp [heq2, hle2 _ _ _ ht1 ht2]

/-- Totality of the `(String key, tie-break)` comparators. -/
theorem strKeyLex_total {κ : Type} (le2 : κ → κ → Bool)
    (hle2 : ∀ x y, (le2 x y || le2 y x) = true) (ka kb : String) (ta tb : κ) :
    (lexLe (strLt ka kb) (strEq ka kb) (le2 ta tb) ||
      lexLe (strLt kb ka) (strEq kb ka) (le2 tb ta)) = true := by
  unfold lexLe strEq
  cases hl : strLt ka kb with
  | true => simp
  | false =>
    cases hl' : strLt kb ka with
    | true => simp
    | false =>
      have he : ka = kb := strLt_conn hl hl'
      rcases Bool.or_eq_true_iff.mp (hle2 ta tb) with h | h <;>
        simp [he, h]

/-- Transitivity of the `(Rat key, tie-break)` comparator (open loops). -/
theorem ratKeyLex_trans {κ : Type} (le2 : κ → κ → Bool)
    (hle2 : ∀ x y z, le2 x y = true → le2 y z = true → le2 x z = true)
    (ka kb kc : Rat) (ta tb tc : κ)
    (h1 : lexLe (qlt ka kb) (ka == kb) (le2 ta tb) = true)
    (h2 : lexLe (qlt kb kc) (kb == kc) (le2 tb tc) = true) :
    lexLe (qlt ka kc) (ka == kc) (le2 ta tc) = true := by
  unfold lexLe at h1 h2 ⊢
  rcases Bool.or_eq_true_iff.mp h1 with hl1 | he1
  · rcases Bool.or_eq_true_iff.mp h2 with hl2 | he2
    · simp [qlt_trans hl1 hl2]
    · obtain ⟨heq, -⟩ := Bool.and_eq_true_iff.mp he2
      rw [beq_iff_eq.mp heq] at hl1
      simp [hl1]
  · obtain ⟨heq1, ht1⟩ := Bool.and_eq_true_iff.mp he1
    rw [beq_iff_eq.mp heq1]
    rcases Bool.or_eq_true_iff.mp h2 with hl2 | he2
    · simp [hl2]
    · obtain ⟨heq2, ht2⟩ := Bool.and_eq_true_iff.mp he2
      simp [heq2, hle2 _ _ _ ht1 ht2]

/-- Totality of the `(Rat key, tie-break)` comparator. -/
theorem ratKeyLex_total {κ : Type} (le2 : κ → κ → Bool)
    (hle2 : ∀ x y, (le2 x y || le2 y x) = true) (ka kb : Rat) (ta tb : κ) :
    (lexLe (qlt ka kb) (ka == kb) (le2 ta tb) ||
      lexLe (qlt kb ka) (kb == ka) (le2 tb ta)) = true := by
  unfold lexLe
  cases hl : qlt ka kb with
  | true => simp
  | false =>
    cases hl' : qlt kb ka with
    | true => simp
    | false =>
      have he : ka = kb := qlt_conn hl hl'
      rcases Bool.or_eq_true_iff.mp (hle2 ta tb) with h | h <;>
        simp [he, h]

/-- The string tie-break used by `entLe` and `loopLe`. -/
def strLe (a b : String) : Bool := strLt a b || strEq a b

theorem strLe_trans (x y z : String) (h1 : strLe x y = true) (h2 : strLe y z = true) :
    strLe x z = true := by
  unfold strLe strEq at h1 h2 ⊢
  rcases Bool.or_eq_true_iff.mp h1 with hl | he
  · rcases Bool.or_eq_true_iff.mp h2 with hl' | he'
    · simp [strLt_trans hl hl']
    · rw [← beq_iff_eq.mp he']
      simp [hl]
  · rw [beq_iff_eq.mp he]
    exact h2

theorem strLe_total (x y : String) : (strLe x y || strLe y x) = true := by
  unfold strLe strEq
  cases hl : strLt x y with
  | true => simp
  | false =>
    cases hl' : strLt y x with
    | true => simp
    | false => simp [strLt_conn hl hl']

theorem kvLe_trans (a b c : KV) (h1 : kvLe a b = true) (h2 : kvLe b c = true) :
    kvLe a c = true := by
  unfold kvLe at h1 h2 ⊢
  exact strKeyLex_trans qle (fun _ _ _ => qle_trans) _ _ _ _ _ _ h1 h2

theorem kvLe_total (a b : KV) : (kvLe a b || kvLe b a) = true := by
  unfold kvLe
  exact strKeyLex_total qle qle_total _ _ _ _

theorem entLe_trans (a b c : Entity) (h1 : entLe a b = true) (h2 : entLe b c = true) :
    entLe a c = true := by
  unfold entLe at h1 h2 ⊢
  exact strKeyLex_trans strLe strLe_trans _ _ _ _ _ _ h1 h2

theorem entLe_total (a b : Entity) : (entLe a b || entLe b a) = true := by
  unfold entLe
  exact strKeyLex_total strLe strLe_total _ _ _ _

theorem loopLe_trans (a b c : OpenLoop) (h1 : loopLe a b = true) (h2 : loopLe b c = true) :
    loopLe a c = true := by
  unfold loopLe at h1 h2 ⊢
  exact ratKeyLex_trans strLe strLe_trans _ _ _ _ _ _ h1 h2

theorem loopLe_total (a b : OpenLoop) : (loopLe a b || loopLe b a) = true := by
  unfold loopLe
  exact ratKeyLex_total strLe strLe_total _ _ _ _

theorem contraLe_trans (a b c : Contradiction) (h1 : contraLe a b = true)
    (h2 : contraLe b c = true) : contraLe a c = true := by
  unfold contraLe at h1 h2 ⊢
  exact strKeyLex_trans qle (fun _ _ _ => qle_trans) _ _ _ _ _ _ h1 h2

theorem contraLe_total (a b : Contradiction) : (contraLe a b || contraLe b a) = true := by
  unfold contraLe
  exact strKeyLex_total qle qle_total _ _ _ _

/-! ## List and dict helper lemmas (for C3) -/

theorem list_set_self : ∀ (l : List α) (i : Nat) (a : α), l[i]? = some a → l.set i a = l
  | [], i, a, h => by simp at h
  | x :: t, 0, a, h => by
    simp only [List.getElem?_cons_zero, Option.some.injEq] at h
    simp [List.set, h]
  | x :: t, i + 1, a, h => by
    simp only [List.getElem?_cons_succ] at h
    simp [List.set, list_set_self t i a h]

theorem eq_of_mem_of_keyUnique {f : α → β} {l : List α} {a b : α}
    (h : l.Pairwise (fun x y => f x ≠ f y)) (ha : a ∈ l) (hb : b ∈ l)
    (hf : f a = f b) : a = b := by
  rw [List.mem_iff_getElem] at ha hb
  obtain ⟨i, hi, rfl⟩ := ha
  obtain ⟨j, hj, rfl⟩ := hb
  rw [List.pairwise_iff_getElem] at h
  rcases Nat.lt_trichotomy i j with hij | rfl | hij
  · exact absurd hf (h i j hi hj hij)
  · rfl
  · exact absurd hf.symm (h j i hj hi hij)

theorem pairwise_ne_set {f : α → β} :
    ∀ {l : List α} {i : Nat} {cur x : α},
      l.Pairwise (fun a b => f a ≠ f b) → l.get? i = some cur → f x = f cur →
      (l.set i x).Pairwise (fun a b => f a ≠ f b)
  | [], i, cur, x, _, hget, _ => by simp at hget
  | a :: t, 0, cur, x, h, hget, hkey => by
    have hac : cur = a := by simpa using hget.symm
    subst hac
    refine List.Pairwise.cons ?_ (List.pairwise_cons.mp h).2
    intro b hb
    rw [hkey]
    exact (List.pairwise_cons.mp h).1 b hb
  | a :: t, i + 1, cur, x, h, hget, hkey => by
    have hget' : t.get? i = some cur := by simpa using hget
    have hcur : cur ∈ t := List.get?_mem hget'
    refine List.Pairwise.cons ?_ (pairwise_ne_set (List.pairwise_cons.mp h).2 hget' hkey)
    intro b hb
    rcases List.mem_or_eq_of_mem_set hb with hb | rfl
    · exact (List.pairwise_cons.mp h).1 b hb
    · rw [hkey]
      exact (List.pairwise_cons.mp h).1 cur hcur

theorem mem_set_or {l : List α} {x e : α} (i : Nat) (he : e ∈ l) :
    e ∈ l.set i x ∨ l[i]? = some e := by
  rw [List.mem_iff_getElem] at he
  obtain ⟨j, hj, rfl⟩ := he
  by_cases hij : j = i
  · subst hij
    exact Or.inr (List.getElem?_eq_getElem hj)
  · left
    rw [List.mem_iff_getElem]
    refine ⟨j, by simpa using hj, ?_⟩
    exact List.getElem_set_ne (fun h => hij h.symm) _

theorem dictGet_nil {α : Type} (k : String) : dictGet ([] : List (String × α)) k = none := rfl

theorem dictGet_cons {α : Type} (k₀ : String) (v₀ : α) (d : List (String × α)) (k : String) :
    dictGet ((k₀, v₀) :: d) k = if k₀ = k then some v₀ else dictGet d k := by
  by_cases h : k₀ = k
  · subst h
    simp [dictGet, List.find?_cons]
  · simp [dictGet, List.find?_cons, h]

theorem dictSet_nil {α : Type} (k : String) (v : α) :
    dictSet ([] : List (String × α)) k v = [(k, v)] := rfl

theorem dictSet_cons {α : Type} (k₀ : String) (v₀ : α) (d : List (String × α))
    (k : String) (v : α) :
    dictSet ((k₀, v₀) :: d) k v =
      if k₀ = k then (k, v) :: d else (k₀, v₀) :: dictSet d k v := by
  by_cases h : k₀ = k
  · subst h
    simp [dictSet, List.findIdx?_cons]
  · have hb : (k₀ == k) = false := by simpa using h
    cases hfi : List.findIdx? (fun kv : String × α => kv.1 == k) d with
    | none => simp [dictSet, List.findIdx?_cons, List.findIdx?_succ, hb, hfi, h]
    | some i => simp [dictSet, List.findIdx?_cons, List.findIdx?_succ, hb, hfi, h, List.set]

theorem dictGet_dictSet {α : Type} :
    ∀ (d : List (String × α)) (k k' : String) (v : α),
      dictGet (dictSet d k v) k' = if k = k' then some v else dictGet d k'
  | [], k, k', v => by
    rw [dictSet_nil, dictGet_cons, dictGet_nil]
  | (k₀, v₀) :: d, k, k', v => by
    rw [dictSet_cons]
    by_cases h : k₀ = k
    · subst h
      by_cases h' : k₀ = k' <;> simp [dictGet_cons, h']
    · rw [if_neg h]
      by_cases h' : k₀ = k'
      · subst h'
        have hne : k ≠ k₀ := fun he => h he.symm
        simp [dictGet_cons, hne]
      · simp [dictGet_cons, h, h', dictGet_dictSet d k k' v]

theorem dictSet_same {α : Type} :
    ∀ {d : List (String × α)} {k : String} {v : α},
      dictGet d k = some v → dictSet d k v = d
  | [], k, v, h => by rw [dictGet_nil] at h; exact absurd h (by simp)
  | (k₀, v₀) :: d, k, v, h => by
    rw [dictGet_cons] at h
    rw [dictSet_cons]
    by_cases hk : k₀ = k
    · rw [if_pos hk]
      rw [if_pos hk] at h
      obtain rfl : v₀ = v := by simpa using h
      rw [hk]
    · rw [if_neg hk]
      rw [if_neg hk] at h
      rw [dictSet_same h]

/-- Fold a list of key-value writes into a Python dict, left to right. -/
def pairFold {α : Type} (ps : List (String × α)) (d : List (String × α)) :
    List (String × α) :=
  ps.foldl (fun d p => dictSet d p.1 p.2) d

theorem dictGet_pairFold_of_not_mem {α : Type} :
    ∀ (ps : List (String × α)) (d : List (String × α)) (k : String),
      (∀ p ∈ ps, p.1 ≠ k) → dictGet (pairFold ps d) k = dictGet d k
  | [], _, _, _ => rfl
  | p :: ps, d, k, h => by
    rw [pairFold, List.foldl_cons]
    rw [show List.foldl (fun d q => dictSet d q.1 q.2) (dictSet d p.1 p.2) ps =
      pairFold ps (dictSet d p.1 p.2) from rfl]
    rw [dictGet_pairFold_of_not_mem ps _ k (fun q hq => h q (by simp [hq]))]
    rw [dictGet_dictSet]
    rw [if_neg (h p (by simp))]

theorem dictGet_pairFold_of_mem {α : Type} :
    ∀ (ps : List (String × α)) (d : List (String × α)) (k : String) (v : α),
      (∃ p ∈ ps, p.1 = k) → (∀ p ∈ ps, p.1 = k → p.2 = v) →
      dictGet (pairFold ps d) k = some v
  | [], _, _, _, hex, _ => by simp at hex
  | p :: ps, d, k, v, hex, hall => by
    rw [pairFold, List.foldl_cons]
    rw [show List.foldl (fun d q => dictSet d q.1 q.2) (dictSet d p.1 p.2) ps =
      pairFold ps (dictSet d p.1 p.2) from rfl]
    by_cases hps : ∃ q ∈ ps, q.1 = k
    · exact dictGet_pairFold_of_mem ps _ k v hps (fun q hq => hall q (by simp [hq]))
    · have hp : p.1 = k := by
        rcases hex with ⟨q, hq, hqk⟩
        rcases List.mem_cons.mp hq with rfl | hq'
        · exact hqk
        · exact absurd ⟨q, hq', hqk⟩ hps
      have hv : p.2 = v := hall p (by simp) hp
      rw [dictGet_pairFold_of_not_mem ps _ k (fun q hq hqk => hps ⟨q, hq, hqk⟩)]
      rw [dictGet_dictSet, if_pos hp, hv]

theorem dictGet_pairFold_some {α : Type} :
    ∀ (ps : List (String × α)) (d : List (String × α)) (k : String) (v : α),
      dictGet (pairFold ps d) k = some v →
      (∃ p ∈ ps, p.1 = k ∧ p.2 = v) ∨ dictGet d k = some v
  | [], _, _, _, h => Or.inr h
  | p :: ps, d, k, v, h => by
    rw [pairFold, List.foldl_cons] at h
    rw [show List.foldl (fun d q => dictSet d q.1 q.2) (dictSet d p.1 p.2) ps =
      pairFold ps (dictSet d p.1 p.2) from rfl] at h
    rcases dictGet_pairFold_some ps _ k v h with h' | h'
    · rcases h' with ⟨q, hq, hqs⟩
      exact Or.inl ⟨q, by simp [hq], hqs⟩
    · rw [dictGet_dictSet] at h'
      by_cases hk : p.1 = k
      · rw [if_pos hk] at h'
        exact Or.inl ⟨p, by simp, hk, by simpa using h'⟩
      · rw [if_neg hk] at h'
        exact Or.inr h'

/-! ## Facts and preferences: the second merge is a no-op (C3) -/

theorem qle_refl (a : Rat) : qle a a = true := qle_iff.mpr (le_refl a)

theorem qle_of_not_qlt {a b : Rat} (h : qlt a b = false) : qle b a = true := by
  unfold qle
  unfold qlt at h
  rw [h]
  rfl

theorem qlt_eq_false_of_qle {a b : Rat} (h : qle a b = true) : qlt b a = false := by
  rw [← Bool.not_eq_true]
  intro hlt
  exact absurd (qle_iff.mp h) (not_le.mpr (qlt_iff.mp hlt))

/-- `{ e with key := k }` is `e` itself once the key already has that
value. -/
theorem kv_eta (e : KV) (k : String) (h : e.key = k) :
    ({ e with key := k } : KV) = e := by
  cases e
  cases h
  rfl

/-- The stored list already absorbs the incoming fact `f`: some entry
carries `f`\'s normalized key verbatim, an equal value, and
timestamp/confidence at least `f`\'s. -/
def GoodIn (l : List KV) (f : KV) : Prop :=
  ∃ e ∈ l, e.key = normKey f.key ∧ valueEqual e.value f.value = true ∧
    qle f.ts.stamp e.ts.stamp = true ∧ qle f.confidence e.confidence = true

theorem upsertKV_noop {l : List KV} {f : KV} {cs : List Contradiction}
    (hu : NormKeyUnique l) (hg : GoodIn l f) :
    upsertKV l f cs = (l, cs, false, none) := by
  obtain ⟨e, he, hkey, hval, hts, hconf⟩ := hg
  have hpe : (normKey e.key == normKey f.key) = true := by
    simp [hkey, normKey_idem]
  cases hfind : l.findIdx? (fun it => normKey it.key == normKey f.key) with
  | none =>
    have := List.findIdx?_eq_none_iff.mp hfind e he
    simp only [hpe] at this
    exact absurd this (by simp)
  | some idx =>
    obtain ⟨hlt, hp, -⟩ := List.findIdx?_eq_some_iff_getElem.mp hfind
    have hidx_e : l[idx] = e := by
      refine eq_of_mem_of_keyUnique hu (List.getElem_mem hlt) he ?_
      have h1 : normKey (l[idx].key) = normKey f.key := by simpa using hp
      rw [h1, hkey, normKey_idem]
    have hgetD : ∀ d : KV, l.getD idx d = e := by
      intro d
      simp [List.getD, List.getElem?_eq_getElem hlt, hidx_e]
    have hset : l.set idx e = l := by
      refine list_set_self l idx e ?_
      rw [List.getElem?_eq_getElem hlt, hidx_e]
    simp only [upsertKV, hfind, hgetD]
    rw [kv_eta e (normKey f.key) hkey]
    have hv : valueEqual e.value f.value = true := hval
    simp only [hv, if_true]
    rw [qlt_eq_false_of_qle hts]
    simp only [Bool.false_eq_true, if_false]
    rw [qlt_eq_false_of_qle hconf]
    simp [hset]

theorem kvStep_noop {st : KVFoldState} {f : KV} (hu : NormKeyUnique st.items)
    (hg : GoodIn st.items f) : kvStep st f = st := by
  unfold kvStep
  rw [upsertKV_noop hu hg]
  rfl

theorem kvFold_noop :
    ∀ (fs : List KV) (st : KVFoldState), NormKeyUnique st.items →
      (∀ f ∈ fs, GoodIn st.items f) → fs.foldl kvStep st = st
  | [], _, _, _ => rfl
  | f :: fs, st, hu, hg => by
    rw [List.foldl_cons, kvStep_noop hu (hg f (by simp))]
    exact kvFold_noop fs st hu (fun g hgm => hg g (by simp [hgm]))

theorem qle_of_qlt {a b : Rat} (h : qlt a b = true) : qle a b = true :=
  qle_iff.mpr (le_of_lt (qlt_iff.mp h))

theorem kvStep_items (st : KVFoldState) (f : KV) :
    (kvStep st f).items = (upsertKV st.items f st.contradictions).1 := rfl

theorem kvStep_contradictions (st : KVFoldState) (f : KV) :
    (kvStep st f).contradictions = (upsertKV st.items f st.contradictions).2.1 := rfl

theorem kvStep_contras (st : KVFoldState) (f : KV) :
    (kvStep st f).contras = st.contras +
      (if (upsertKV st.items f st.contradictions).2.2.2.isSome = true then 1 else 0) := rfl

theorem kvStep_contras_le (st : KVFoldState) (f : KV) :
    st.contras ≤ (kvStep st f).contras := by
  rw [kvStep_contras]
  split <;> omega

theorem kvFold_contras_le :
    ∀ (fs : List KV) (st : KVFoldState), st.contras ≤ (fs.foldl kvStep st).contras
  | [], _ => le_refl _
  | f :: fs, st =>
    le_trans (kvStep_contras_le st f) (kvFold_contras_le fs (kvStep st f))

theorem kv_ts_upd_confidence (c : KV) (t : DT) (s : String) :
    ({ c with ts := t, source := s } : KV).confidence = c.confidence := rfl

/-- The timestamp/confidence refresh performed on an equal-valued hit:
the resulting entry keeps the key and value and dominates both the
stored and the incoming timestamps and confidences. -/
theorem kvRefreshGood (cur f : KV) :
    ∃ e : KV,
      (if qlt (if qlt cur.ts.stamp f.ts.stamp = true
               then { cur with ts := f.ts, source := f.source }
               else cur).confidence f.confidence = true
       then { (if qlt cur.ts.stamp f.ts.stamp = true
               then { cur with ts := f.ts, source := f.source }
               else cur) with confidence := f.confidence }
       else (if qlt cur.ts.stamp f.ts.stamp = true
             then { cur with ts := f.ts, source := f.source }
             else cur)) = e ∧
      e.key = cur.key ∧ e.value = cur.value ∧
      qle f.ts.stamp e.ts.stamp = true ∧ qle cur.ts.stamp e.ts.stamp = true ∧
      qle f.confidence e.confidence = true ∧ qle cur.confidence e.confidence = true := by
  by_cases hq1 : qlt cur.ts.stamp f.ts.stamp = true
  · rw [if_pos hq1]
    simp only [kv_ts_upd_confidence]
    by_cases hq2 : qlt cur.confidence f.confidence = true
    · rw [if_pos hq2]
      exact ⟨_, rfl, rfl, rfl, qle_refl _, qle_of_qlt hq1, qle_refl _, qle_of_qlt hq2⟩
    · rw [if_neg hq2]
      rw [Bool.not_eq_true] at hq2
      exact ⟨_, rfl, rfl, rfl, qle_refl _, qle_of_qlt hq1, qle_of_not_qlt hq2, qle_refl _⟩
  · rw [if_neg hq1]
    rw [Bool.not_eq_true] at hq1
    by_cases hq2 : qlt cur.confidence f.confidence = true
    · rw [if_pos hq2]
      exact ⟨_, rfl, rfl, rfl, qle_of_not_qlt hq1, qle_refl _, qle_refl _, qle_of_qlt hq2⟩
    · rw [if_neg hq2]
      rw [Bool.not_eq_true] at hq2
      exact ⟨_, rfl, rfl, rfl, qle_of_not_qlt hq1, qle_refl _, qle_of_not_qlt hq2, qle_refl _⟩

theorem upsertKV_none_cases (l : List KV) (f : KV) (cs : List Contradiction)
    (h : (upsertKV l f cs).2.2.2 = none) :
    (upsertKV l f cs).2.1 = cs ∧
    ((upsertKV l f cs).1 = l ++ [{ f with key := normKey f.key }] ∨
      ∃ idx : Nat, ∃ hidx : idx < l.length, ∃ e : KV,
        (upsertKV l f cs).1 = l.set idx e ∧
        e.key = normKey f.key ∧
        e.value = l[idx].value ∧
        valueEqual (l[idx]).value f.value = true ∧
        qle f.ts.stamp e.ts.stamp = true ∧ qle (l[idx]).ts.stamp e.ts.stamp = true ∧
        qle f.confidence e.confidence = true ∧
        qle (l[idx]).confidence e.confidence = true ∧
        normKey (l[idx]).key = normKey f.key) := by
  cases hfind : l.findIdx? (fun it => normKey it.key == normKey f.key) with
  | none =>
    simp only [upsertKV, hfind]
    simp
  | some idx =>
    obtain ⟨hlt, hp, -⟩ := List.findIdx?_eq_some_iff_getElem.mp hfind
    have hkeq : normKey ((l[idx]).key) = normKey f.key := by simpa using hp
    have hgetD : ∀ d : KV, l.getD idx d = l[idx] := by
      intro d
      simp [List.getD, List.getElem?_eq_getElem hlt]
    simp only [upsertKV, hfind, hgetD] at h ⊢
    by_cases hv : valueEqual ((l[idx]).value) f.value = true
    · rw [if_pos hv] at h ⊢
      obtain ⟨e, hee, hk, hval', ht1, ht2, hc1', hc2'⟩ :=
        kvRefreshGood { l[idx] with key := normKey f.key } f
      rw [hee]
      exact ⟨rfl, Or.inr ⟨idx, hlt, e, rfl, hk, hval', hv, ht1, ht2, hc1', hc2', hkeq⟩⟩
    · rw [if_neg hv] at h
      by_cases hts : qle ((l[idx]).ts.stamp) f.ts.stamp = true
      · rw [if_pos hts] at h
        simp at h
      · rw [if_neg hts] at h
        simp at h

theorem kvStep_good_of_none {st : KVFoldState} {f : KV}
    (h : (upsertKV st.items f st.contradictions).2.2.2 = none) :
    GoodIn (kvStep st f).items f ∧
      (∀ g, GoodIn st.items g → GoodIn (kvStep st f).items g) := by
  obtain ⟨-, hcase⟩ := upsertKV_none_cases st.items f st.contradictions h
  rw [kvStep_items]
  rcases hcase with happ | ⟨idx, hidx, e, hset, hek, hev, hval, hts1, hts2, hc1, hc2, hnk⟩
  · rw [happ]
    constructor
    · exact ⟨{ f with key := normKey f.key }, by simp, rfl, valueEqual_refl _,
        qle_refl _, qle_refl _⟩
    · rintro g ⟨eg, heg, h1, h2, h3, h4⟩
      exact ⟨eg, by simp [heg], h1, h2, h3, h4⟩
  · rw [hset]
    have hmem : e ∈ st.items.set idx e := List.mem_set st.items idx hidx e
    constructor
    · refine ⟨e, hmem, hek, ?_, hts1, hc1⟩
      rw [hev]
      exact hval
    · rintro g ⟨eg, heg, h1, h2, h3, h4⟩
      rcases mem_set_or idx heg with hg' | hg'
      · exact ⟨eg, hg', h1, h2, h3, h4⟩
      · have hidx_eg : (st.items)[idx] = eg := by
          rw [List.getElem?_eq_getElem hidx] at hg'
          simpa using hg'
        refine ⟨e, hmem, ?_, ?_, ?_, ?_⟩
        · rw [hek, ← normKey_idem f.key, ← hnk, hidx_eg, h1,
            normKey_idem g.key, normKey_idem g.key]
        · rw [hev, hidx_eg]
          exact h2
        · rw [hidx_eg] at hts2
          exact qle_trans h3 hts2
        · rw [hidx_eg] at hc2
          exact qle_trans h4 hc2

theorem kvFold_good :
    ∀ (fs : List KV) (st : KVFoldState),
      (fs.foldl kvStep st).contras = st.contras →
      (∀ f ∈ fs, GoodIn (fs.foldl kvStep st).items f) ∧
      (∀ g, GoodIn st.items g → GoodIn (fs.foldl kvStep st).items g)
  | [], st, _ => ⟨by simp, fun _ hg => hg⟩
  | f :: fs, st, hc => by
    rw [List.foldl_cons] at hc ⊢
    have h1 : st.contras ≤ (kvStep st f).contras := kvStep_contras_le st f
    have h2 : (kvStep st f).contras ≤ (fs.foldl kvStep (kvStep st f)).contras :=
      kvFold_contras_le fs _
    have heq : (kvStep st f).contras = st.contras := by omega
    have hnone : (upsertKV st.items f st.contradictions).2.2.2 = none := by
      cases ho : (upsertKV st.items f st.contradictions).2.2.2 with
      | none => rfl
      | some c =>
        rw [kvStep_contras, ho] at heq
        simp at heq
    have hstep := kvStep_good_of_none hnone
    have ih := kvFold_good fs (kvStep st f) (by omega)
    refine ⟨?_, fun g hg => ih.2 g (hstep.2 g hg)⟩
    intro x hx
    rcases List.mem_cons.mp hx with rfl | hx'
    · exact ih.2 x hstep.1
    · exact ih.1 x hx'

/-! ## Open loops: the second merge is a no-op (C3) -/

theorem loopStep_fst (st : List OpenLoop × Nat) (o : OpenLoop) :
    (loopStep st o).1 = (dedupeOpenLoops st.1 o).1 := rfl

/-- The stored open-loop list already absorbs the incoming loop `o`:
its normalized text is empty, or some stored loop has the same
normalized text and a timestamp at least `o`\'s. -/
def LoopGood (l : List OpenLoop) (o : OpenLoop) : Prop :=
  loopNorm o.item = "" ∨
    ∃ e ∈ l, loopNorm e.item = loopNorm o.item ∧ qle o.ts.stamp e.ts.stamp = true

theorem loopLe_ts {m e : OpenLoop} (h : loopLe m e = true) :
    qle e.ts.stamp m.ts.stamp = true := by
  unfold loopLe lexLe at h
  rcases Bool.or_eq_true_iff.mp h with h1 | h1
  · have h2 : -(m.ts.stamp) < -(e.ts.stamp) := qlt_iff.mp h1
    rw [qle_iff]
    linarith
  · obtain ⟨heq, -⟩ := Bool.and_eq_true_iff.mp h1
    have h2 : -(m.ts.stamp) = -(e.ts.stamp) := beq_iff_eq.mp heq
    rw [qle_iff]
    have h3 : m.ts.stamp = e.ts.stamp := by linarith
    rw [h3]

theorem findIdx_first_rel {R : α → α → Prop} {p : α → Bool} {l : List α} {i : Nat} {e : α}
    (hs : l.Pairwise R) (hfind : l.findIdx? p = some i) (he : e ∈ l) (hpe : p e = true) :
    ∃ h : i < l.length, l[i] = e ∨ R l[i] e := by
  obtain ⟨hlt, hp, hmin⟩ := List.findIdx?_eq_some_iff_getElem.mp hfind
  refine ⟨hlt, ?_⟩
  rw [List.mem_iff_getElem] at he
  obtain ⟨j, hj, rfl⟩ := he
  rcases Nat.lt_trichotomy i j with hij | rfl | hij
  · right
    rw [List.pairwise_iff_getElem] at hs
    exact hs i j hlt hj hij
  · exact Or.inl rfl
  · exact absurd hpe (hmin j hij)

theorem dedupe_good (l : List OpenLoop) (o : OpenLoop) :
    LoopGood (dedupeOpenLoops l o).1 o := by
  unfold dedupeOpenLoops
  by_cases hn : loopNorm o.item = ""
  · rw [if_pos hn]
    exact Or.inl hn
  · rw [if_neg hn]
    cases hfind : l.findIdx? (fun loop => loopNorm loop.item == loopNorm o.item) with
    | none =>
      simp only [hfind]
      exact Or.inr ⟨o, by simp, rfl, qle_refl _⟩
    | some i =>
      obtain ⟨hlt, hp, -⟩ := List.findIdx?_eq_some_iff_getElem.mp hfind
      have hpn : loopNorm ((l[i]).item) = loopNorm o.item := by simpa using hp
      have hgetD : l.getD i o = l[i] := by
        simp [List.getD, List.getElem?_eq_getElem hlt]
      simp only [hfind, hgetD]
      by_cases hq : qlt ((l[i]).ts.stamp) o.ts.stamp = true
      · rw [if_pos hq]
        exact Or.inr ⟨o, List.mem_set l i hlt o, rfl, qle_refl _⟩
      · rw [if_neg hq]
        rw [Bool.not_eq_true] at hq
        exact Or.inr ⟨l[i], List.getElem_mem hlt, hpn, qle_of_not_qlt hq⟩

theorem dedupe_preserves {l : List OpenLoop} {g : OpenLoop} (o : OpenLoop)
    (hg : LoopGood l g) : LoopGood (dedupeOpenLoops l o).1 g := by
  rcases hg with hn | ⟨e, he, hne, hqe⟩
  · exact Or.inl hn
  · right
    unfold dedupeOpenLoops
    by_cases hno : loopNorm o.item = ""
    · rw [if_pos hno]
      exact ⟨e, he, hne, hqe⟩
    · rw [if_neg hno]
      cases hfind : l.findIdx? (fun loop => loopNorm loop.item == loopNorm o.item) with
      | none =>
        simp only [hfind]
        exact ⟨e, by simp [he], hne, hqe⟩
      | some i =>
        obtain ⟨hlt, hp, -⟩ := List.findIdx?_eq_some_iff_getElem.mp hfind
        have hpn : loopNorm ((l[i]).item) = loopNorm o.item := by simpa using hp
        have hgetD : l.getD i o = l[i] := by
          simp [List.getD, List.getElem?_eq_getElem hlt]
        simp only [hfind, hgetD]
        by_cases hq : qlt ((l[i]).ts.stamp) o.ts.stamp = true
        · rw [if_pos hq]
          rcases mem_set_or i he with he' | he'
          · exact ⟨e, he', hne, hqe⟩
          · have hie : l[i] = e := by
              rw [List.getElem?_eq_getElem hlt] at he'
              simpa using he'
            refine ⟨o, List.mem_set l i hlt o, ?_, ?_⟩
            · rw [hie] at hpn
              exact hpn.symm.trans hne
            · rw [hie] at hq
              exact qle_trans hqe (qle_of_qlt hq)
        · rw [if_neg hq]
          exact ⟨e, he, hne, hqe⟩

theorem loopFold_good :
    ∀ (os : List OpenLoop) (st : List OpenLoop × Nat),
      (∀ o ∈ os, LoopGood (os.foldl loopStep st).1 o) ∧
      (∀ g, LoopGood st.1 g → LoopGood (os.foldl loopStep st).1 g)
  | [], _ => ⟨by simp, fun _ hg => hg⟩
  | o :: os, st => by
    rw [List.foldl_cons]
    have hstep1 : LoopGood (loopStep st o).1 o := by
      rw [loopStep_fst]
      exact dedupe_good st.1 o
    have hstep2 : ∀ g, LoopGood st.1 g → LoopGood (loopStep st o).1 g := by
      intro g hg
      rw [loopStep_fst]
      exact dedupe_preserves o hg
    have ih := loopFold_good os (loopStep st o)
    refine ⟨?_, fun g hg => ih.2 g (hstep2 g hg)⟩
    intro x hx
    rcases List.mem_cons.mp hx with rfl | hx'
    · exact ih.2 x hstep1
    · exact ih.1 x hx'

theorem dedupe_noop {l : List OpenLoop} {o : OpenLoop}
    (hs : l.Pairwise (fun a b => loopLe a b = true)) (hg : LoopGood l o) :
    dedupeOpenLoops l o = (l, false) := by
  unfold dedupeOpenLoops
  rcases hg with hn | ⟨e, he, hne, hqe⟩
  · rw [if_pos hn]
  · by_cases hno : loopNorm o.item = ""
    · rw [if_pos hno]
    · rw [if_neg hno]
      have hpe : (loopNorm e.item == loopNorm o.item) = true := by simp [hne]
      cases hfind : l.findIdx? (fun loop => loopNorm loop.item == loopNorm o.item) with
      | none =>
        have := List.findIdx?_eq_none_iff.mp hfind e he
        rw [hpe] at this
        exact absurd this (by simp)
      | some i =>
        obtain ⟨hlt, hfirst⟩ := findIdx_first_rel hs hfind he hpe
        have hgetD : l.getD i o = l[i] := by
          simp [List.getD, List.getElem?_eq_getElem hlt]
        simp only [hfind, hgetD]
        have hts : qle o.ts.stamp ((l[i]).ts.stamp) = true := by
          rcases hfirst with hie | hrel
          · rw [hie]
            exact hqe
          · exact qle_trans hqe (loopLe_ts hrel)
        rw [qlt_eq_false_of_qle hts]
        simp

theorem loopFold_noop :
    ∀ (os : List OpenLoop) (l : List OpenLoop) (n : Nat),
      l.Pairwise (fun a b => loopLe a b = true) →
      (∀ o ∈ os, LoopGood l o) →
      os.foldl loopStep (l, n) = (l, n)
  | [], _, _, _, _ => rfl
  | o :: os, l, n, hs, hg => by
    rw [List.foldl_cons]
    have hone : loopStep (l, n) o = (l, n) := by
      unfold loopStep
      rw [show ((l, n) : List OpenLoop × Nat).1 = l from rfl,
        dedupe_noop hs (hg o (by simp))]
      rfl
    rw [hone]
    exact loopFold_noop os l n hs (fun x hx => hg x (by simp [hx]))

/-! ## Entities: definitions and `_merge_entity` absorption (C3) -/

/-- Pairwise-distinct entity name keys (`_entity_key`). -/
def NamesUnique (l : List Entity) : Prop :=
  l.Pairwise (fun a b => entityKey a.name ≠ entityKey b.name)

/-- All keys an entity responds to: its name key and the lowercased
aliases. -/
def entKeys (e : Entity) : List String := entityKey e.name :: e.aliases.map pyLower

/-- No key is claimed by two different entities of the list. -/
def KeysDisjoint (l : List Entity) : Prop :=
  l.Pairwise (fun a b => ∀ k, k ∈ entKeys a → k ∉ entKeys b)

/-- Every alias is already whitespace-trimmed. -/
def EntClean (e : Entity) : Prop := ∀ a ∈ e.aliases, pyStrip a = a

/-- `E` absorbs the incoming entity `i`: `i`\'s name key is `E`\'s name
key or one of `E`\'s lowercased aliases, every nonempty trimmed alias of
`i` is already among `E`\'s lowercased aliases, and `E` only has type
`other` if `i` does. -/
def Covers (E i : Entity) : Prop :=
  (entityKey i.name = entityKey E.name ∨ entityKey i.name ∈ E.aliases.map pyLower) ∧
  (∀ a ∈ i.aliases, pyStrip a ≠ "" → pyLower (pyStrip a) ∈ E.aliases.map pyLower) ∧
  (E.type = "other" → i.type = "other")

theorem namesUnique_of_keysDisjoint {l : List Entity} (h : KeysDisjoint l) :
    NamesUnique l := by
  refine List.Pairwise.imp ?_ h
  intro a b hab he
  refine hab (entityKey a.name) (by simp [entKeys]) ?_
  rw [he]
  simp [entKeys]

theorem keysDisjoint_unique {l : List Entity} (h : KeysDisjoint l) {a b : Entity}
    (ha : a ∈ l) (hb : b ∈ l) {k : String} (hka : k ∈ entKeys a) (hkb : k ∈ entKeys b) :
    a = b := by
  rw [List.mem_iff_getElem] at ha hb
  obtain ⟨i, hi, rfl⟩ := ha
  obtain ⟨j, hj, rfl⟩ := hb
  rw [KeysDisjoint, List.pairwise_iff_getElem] at h
  rcases Nat.lt_trichotomy i j with hij | rfl | hij
  · exact absurd hkb (h i j hi hj hij k hka)
  · rfl
  · exact absurd hka (h j i hj hi hij k hkb)

theorem pyLower_eq_empty {s : String} (h : pyLower s = "") : s = "" := by
  unfold pyLower at h
  cases s with
  | mk d =>
    cases d with
    | nil => rfl
    | cons c cs => simp [String.ext_iff] at h

theorem pyStrip_ne_empty_of_entityKey {s : String} (h : entityKey s ≠ "") :
    pyStrip s ≠ "" := by
  intro hs
  exact h (by rw [entityKey, hs]; rfl)

theorem addAlias_fst_append (st : List String × List String) (x : String) :
    ∃ ext : List String, (addAlias st x).1 = st.1 ++ ext := by
  unfold addAlias
  by_cases h : pyStrip x = ""
  · rw [if_pos h]
    exact ⟨[], by simp⟩
  · rw [if_neg h]
    by_cases h2 : st.2.contains (pyLower (pyStrip x)) = true
    · rw [if_pos h2]
      exact ⟨[], by simp⟩
    · rw [if_neg h2]
      exact ⟨[pyStrip x], rfl⟩

theorem addAlias_snd_lower {st : List String × List String}
    (h : st.2 = st.1.map pyLower) (x : String) :
    (addAlias st x).2 = (addAlias st x).1.map pyLower := by
  unfold addAlias
  by_cases h1 : pyStrip x = ""
  · rw [if_pos h1]
    exact h
  · rw [if_neg h1]
    by_cases h2 : st.2.contains (pyLower (pyStrip x)) = true
    · rw [if_pos h2]
      exact h
    · rw [if_neg h2]
      simp [h]

theorem addAlias_mem_snd (st : List String × List String) (x : String)
    (hx : pyStrip x ≠ "") : pyLower (pyStrip x) ∈ (addAlias st x).2 := by
  unfold addAlias
  rw [if_neg hx]
  by_cases h2 : st.2.contains (pyLower (pyStrip x)) = true
  · rw [if_pos h2]
    exact str_contains_iff.mp h2
  · rw [if_neg h2]
    simp

theorem addAlias_snd_mono {st : List String × List String} {k : String}
    (hk : k ∈ st.2) (x : String) : k ∈ (addAlias st x).2 := by
  unfold addAlias
  by_cases h1 : pyStrip x = ""
  · rw [if_pos h1]
    exact hk
  · rw [if_neg h1]
    by_cases h2 : st.2.contains (pyLower (pyStrip x)) = true
    · rw [if_pos h2]
      exact hk
    · rw [if_neg h2]
      simp [hk]

theorem addAlias_stripped {st : List String × List String}
    (h : ∀ a ∈ st.1, pyStrip a = a) (x : String) :
    ∀ a ∈ (addAlias st x).1, pyStrip a = a := by
  unfold addAlias
  by_cases h1 : pyStrip x = ""
  · rw [if_pos h1]
    exact h
  · rw [if_neg h1]
    by_cases h2 : st.2.contains (pyLower (pyStrip x)) = true
    · rw [if_pos h2]
      exact h
    · rw [if_neg h2]
      intro a ha
      rcases List.mem_append.mp ha with ha' | ha'
      · exact h a ha'
      · rw [List.mem_singleton.mp ha']
        exact pyStrip_idem x

theorem foldAA_fst_append :
    ∀ (as : List String) (st : List String × List String),
      ∃ ext : List String, (as.foldl addAlias st).1 = st.1 ++ ext
  | [], st => ⟨[], by simp⟩
  | a :: as, st => by
    rw [List.foldl_cons]
    obtain ⟨e1, h1⟩ := addAlias_fst_append st a
    obtain ⟨e2, h2⟩ := foldAA_fst_append as (addAlias st a)
    exact ⟨e1 ++ e2, by rw [h2, h1, List.append_assoc]⟩

theorem foldAA_snd_mono :
    ∀ (as : List String) (st : List String × List String) (k : String),
      k ∈ st.2 → k ∈ (as.foldl addAlias st).2
  | [], _, _, hk => hk
  | a :: as, st, k, hk => by
    rw [List.foldl_cons]
    exact foldAA_snd_mono as _ k (addAlias_snd_mono hk a)

theorem foldAA_snd_lower :
    ∀ (as : List String) (st : List String × List String),
      st.2 = st.1.map pyLower →
      (as.foldl addAlias st).2 = (as.foldl addAlias st).1.map pyLower
  | [], _, h => h
  | a :: as, st, h => by
    rw [List.foldl_cons]
    exact foldAA_snd_lower as _ (addAlias_snd_lower h a)

theorem foldAA_mem :
    ∀ (as : List String) (st : List String × List String) (a : String),
      a ∈ as → pyStrip a ≠ "" → pyLower (pyStrip a) ∈ (as.foldl addAlias st).2
  | [], _, _, ha, _ => by simp at ha
  | x :: as, st, a, ha, hs => by
    rw [List.foldl_cons]
    rcases List.mem_cons.mp ha with rfl | ha'
    · exact foldAA_snd_mono as _ _ (addAlias_mem_snd st a hs)
    · exact foldAA_mem as _ a ha' hs

theorem foldAA_stripped :
    ∀ (as : List String) (st : List String × List String),
      (∀ a ∈ st.1, pyStrip a = a) →
      ∀ a ∈ (as.foldl addAlias st).1, pyStrip a = a
  | [], _, h => h
  | x :: as, st, h => by
    rw [List.foldl_cons]
    exact foldAA_stripped as _ (addAlias_stripped h x)

theorem foldAA_noop :
    ∀ (as : List String) (st : List String × List String),
      (∀ a ∈ as, pyStrip a ≠ "" → st.2.contains (pyLower (pyStrip a)) = true) →
      as.foldl addAlias st = st
  | [], _, _ => rfl
  | a :: as, st, h => by
    rw [List.foldl_cons]
    have hone : addAlias st a = st := by
      unfold addAlias
      by_cases h1 : pyStrip a = ""
      · rw [if_pos h1]
      · rw [if_neg h1, if_pos (h a (by simp) h1)]
    rw [hone]
    exact foldAA_noop as st (fun x hx => h x (by simp [hx]))

/-- The seen-state `_merge_entity` has built just before folding the
incoming aliases: the existing aliases plus possibly the incoming name. -/
def mergeEntityStart (t i : Entity) : List String × List String :=
  if pyLower (pyStrip t.name) ≠ pyLower (pyStrip i.name) then
    addAlias (t.aliases, t.aliases.map pyLower) i.name
  else (t.aliases, t.aliases.map pyLower)

theorem mergeEntity_aliases_eq (t i : Entity) :
    (mergeEntity t i).aliases = (i.aliases.foldl addAlias (mergeEntityStart t i)).1 := rfl

theorem mergeEntity_name (t i : Entity) : (mergeEntity t i).name = t.name := rfl

theorem mergeEntityStart_snd (t i : Entity) :
    (mergeEntityStart t i).2 = (mergeEntityStart t i).1.map pyLower := by
  unfold mergeEntityStart
  split
  · exact addAlias_snd_lower rfl i.name
  · rfl

theorem mergeEntityStart_fst_append (t i : Entity) :
    ∃ ext : List String, (mergeEntityStart t i).1 = t.aliases ++ ext := by
  unfold mergeEntityStart
  split
  · exact addAlias_fst_append _ i.name
  · exact ⟨[], by simp⟩

theorem mergeEntity_aliases_append (t i : Entity) :
    ∃ ext : List String, (mergeEntity t i).aliases = t.aliases ++ ext := by
  rw [mergeEntity_aliases_eq]
  obtain ⟨e1, h1⟩ := mergeEntityStart_fst_append t i
  obtain ⟨e2, h2⟩ := foldAA_fst_append i.aliases (mergeEntityStart t i)
  exact ⟨e1 ++ e2, by rw [h2, h1, List.append_assoc]⟩

theorem mergeEntity_type_other {t i : Entity} (h : (mergeEntity t i).type = "other") :
    t.type = "other" := by
  by_cases hp : t.type = "other" ∧ i.type ≠ "other"
  · exact hp.1
  · have ht : (mergeEntity t i).type = t.type := by
      unfold mergeEntity
      simp only [if_neg hp]
    rw [ht] at h
    exact h

theorem mergeEntity_type_absorbed {t i : Entity} (h : (mergeEntity t i).type = "other") :
    i.type = "other" := by
  by_cases hp : t.type = "other" ∧ i.type ≠ "other"
  · have ht : (mergeEntity t i).type = i.type := by
      unfold mergeEntity
      simp only [if_pos hp]
    rw [ht] at h
    exact absurd h hp.2
  · have ht : (mergeEntity t i).type = t.type := by
      unfold mergeEntity
      simp only [if_neg hp]
    rw [ht] at h
    by_contra hi
    exact hp ⟨h, hi⟩

theorem mergeEntity_clean {t : Entity} (i : Entity) (hc : EntClean t) :
    EntClean (mergeEntity t i) := by
  rw [EntClean, mergeEntity_aliases_eq]
  refine foldAA_stripped i.aliases (mergeEntityStart t i) ?_
  unfold mergeEntityStart
  split
  · refine addAlias_stripped ?_ i.name
    exact hc
  · exact hc

theorem covers_mergeEntity {E i j : Entity} (h : Covers E i) : Covers (mergeEntity E j) i := by
  obtain ⟨h1, h2, h3⟩ := h
  obtain ⟨ext, hext⟩ := mergeEntity_aliases_append E j
  refine ⟨?_, ?_, ?_⟩
  · rcases h1 with h1 | h1
    · left
      rw [mergeEntity_name]
      exact h1
    · right
      rw [hext, List.map_append]
      exact List.mem_append_left _ h1
  · intro a ha hs
    rw [hext, List.map_append]
    exact List.mem_append_left _ (h2 a ha hs)
  · intro ho
    exact h3 (mergeEntity_type_other ho)

theorem covers_mergeEntity_self (t i : Entity) (hname : entityKey i.name ≠ "") :
    Covers (mergeEntity t i) i := by
  have hstrip : pyStrip i.name ≠ "" := pyStrip_ne_empty_of_entityKey hname
  have hsnd : (i.aliases.foldl addAlias (mergeEntityStart t i)).2 =
      (mergeEntity t i).aliases.map pyLower := by
    rw [mergeEntity_aliases_eq]
    exact foldAA_snd_lower i.aliases _ (mergeEntityStart_snd t i)
  refine ⟨?_, ?_, mergeEntity_type_absorbed⟩
  · by_cases hc : pyLower (pyStrip t.name) ≠ pyLower (pyStrip i.name)
    · right
      rw [← hsnd]
      refine foldAA_snd_mono i.aliases _ _ ?_
      have : entityKey i.name ∈ (mergeEntityStart t i).2 := by
        unfold mergeEntityStart
        rw [if_pos hc]
        exact addAlias_mem_snd _ i.name hstrip
      exact this
    · left
      rw [mergeEntity_name]
      have : pyLower (pyStrip t.name) = pyLower (pyStrip i.name) := not_not.mp hc
      rw [entityKey, entityKey, this]
  · intro a ha hs
    rw [← hsnd]
    exact foldAA_mem i.aliases _ a ha hs

theorem mergeEntity_self_of_covers {E i : Entity} (hcov : Covers E i)
    (hname : entityKey i.name ≠ "") : mergeEntity E i = E := by
  obtain ⟨h1, h2, h3⟩ := hcov
  have hstart : mergeEntityStart E i = (E.aliases, E.aliases.map pyLower) := by
    unfold mergeEntityStart
    by_cases hc : pyLower (pyStrip E.name) ≠ pyLower (pyStrip i.name)
    · rw [if_pos hc]
      have hmem : entityKey i.name ∈ E.aliases.map pyLower := by
        rcases h1 with h1 | h1
        · exact absurd h1.symm hc
        · exact h1
      unfold addAlias
      rw [if_neg (pyStrip_ne_empty_of_entityKey hname)]
      show (if (E.aliases.map pyLower).contains (pyLower (pyStrip i.name)) = true
          then ((E.aliases, E.aliases.map pyLower) : List String × List String)
          else (E.aliases ++ [pyStrip i.name],
            E.aliases.map pyLower ++ [pyLower (pyStrip i.name)])) =
        (E.aliases, E.aliases.map pyLower)
      have hmem' : (E.aliases.map pyLower).contains (pyLower (pyStrip i.name)) = true :=
        str_contains_iff.mpr hmem
      rw [if_pos hmem']
    · rw [if_neg hc]
  have hfold : i.aliases.foldl addAlias (E.aliases, E.aliases.map pyLower) =
      (E.aliases, E.aliases.map pyLower) := by
    refine foldAA_noop i.aliases _ ?_
    intro a ha hs
    exact str_contains_iff.mpr (h2 a ha hs)
  have htyp : ¬(E.type = "other" ∧ i.type ≠ "other") := by
    rintro ⟨ho, hi⟩
    exact hi (h3 ho)
  unfold mergeEntity
  show Entity.mk E.name
      (if E.type = "other" ∧ i.type ≠ "other" then i.type else E.type)
      (List.foldl addAlias
        (if pyLower (pyStrip E.name) ≠ pyLower (pyStrip i.name) then
          addAlias (E.aliases, E.aliases.map pyLower) i.name
        else (E.aliases, E.aliases.map pyLower)) i.aliases).1 = E
  rw [show (if pyLower (pyStrip E.name) ≠ pyLower (pyStrip i.name) then
      addAlias (E.aliases, E.aliases.map pyLower) i.name
    else (E.aliases, E.aliases.map pyLower)) = mergeEntityStart E i from rfl]
  rw [hstart, hfold, if_neg htyp]

/-! ## The rebuilt `entity_map` and `alias_index` (C3) -/

theorem buildMap_pairFold (l : List Entity) :
    buildMap l = pairFold (l.map (fun e => (entityKey e.name, e))) [] := by
  rw [buildMap, pairFold, List.foldl_map]

theorem buildMap_complete {l : List Entity} (hu : NamesUnique l) {e : Entity}
    (he : e ∈ l) : dictGet (buildMap l) (entityKey e.name) = some e := by
  rw [buildMap_pairFold]
  refine dictGet_pairFold_of_mem _ _ _ _ ⟨(entityKey e.name, e), ?_, rfl⟩ ?_
  · simp only [List.mem_map]
    exact ⟨e, he, rfl⟩
  · rintro p hp hk
    simp only [List.mem_map] at hp
    obtain ⟨x, hx, rfl⟩ := hp
    have hxe : x = e := eq_of_mem_of_keyUnique hu hx he hk
    rw [hxe]

theorem buildMap_sound {l : List Entity} {k : String} {e : Entity}
    (h : dictGet (buildMap l) k = some e) : e ∈ l ∧ entityKey e.name = k := by
  rw [buildMap_pairFold] at h
  rcases dictGet_pairFold_some _ _ _ _ h with ⟨p, hp, hk, hv⟩ | h'
  · simp only [List.mem_map] at hp
    obtain ⟨x, hx, rfl⟩ := hp
    obtain rfl : x = e := hv
    exact ⟨hx, hk⟩
  · rw [dictGet_nil] at h'
    cases h'

theorem pairFold_append {α : Type} (ps qs : List (String × α)) (d : List (String × α)) :
    pairFold (ps ++ qs) d = pairFold qs (pairFold ps d) := by
  rw [pairFold, pairFold, pairFold, List.foldl_append]

theorem buildAidx_pairFold_aux :
    ∀ (l : List Entity) (d : List (String × String)),
      l.foldl (fun ai e => e.aliases.foldl
        (fun ai a => dictSet ai (entityKey a) (entityKey e.name)) ai) d =
      pairFold (l.flatMap
        (fun e => e.aliases.map (fun a => (entityKey a, entityKey e.name)))) d
  | [], _ => rfl
  | e :: l, d => by
    have hinner : e.aliases.foldl
        (fun ai a => dictSet ai (entityKey a) (entityKey e.name)) d =
        pairFold (e.aliases.map (fun a => (entityKey a, entityKey e.name))) d := by
      rw [pairFold, List.foldl_map]
    rw [List.foldl_cons, hinner, buildAidx_pairFold_aux l, List.flatMap_cons,
      pairFold_append]

theorem buildAidx_pairFold (l : List Entity) :
    buildAidx l = pairFold (l.flatMap
      (fun e => e.aliases.map (fun a => (entityKey a, entityKey e.name)))) [] :=
  buildAidx_pairFold_aux l []

theorem buildAidx_values {l : List Entity} {k o : String}
    (h : dictGet (buildAidx l) k = some o) : ∃ e ∈ l, entityKey e.name = o := by
  rw [buildAidx_pairFold] at h
  rcases dictGet_pairFold_some _ _ _ _ h with ⟨p, hp, -, hv⟩ | h'
  · simp only [List.mem_flatMap, List.mem_map] at hp
    obtain ⟨e, he, a, -, rfl⟩ := hp
    exact ⟨e, he, hv⟩
  · rw [dictGet_nil] at h'
    cases h'

theorem buildAidx_get_mem {l : List Entity} (hd : KeysDisjoint l)
    (hc : ∀ e ∈ l, EntClean e) {E : Entity} (hE : E ∈ l) {k : String}
    (hk : k ∈ E.aliases.map pyLower) :
    dictGet (buildAidx l) k = some (entityKey E.name) := by
  rw [buildAidx_pairFold]
  simp only [List.mem_map] at hk
  obtain ⟨a, ha, hak⟩ := hk
  have hclean : pyStrip a = a := hc E hE a ha
  have haek : entityKey a = k := by
    rw [entityKey, hclean, hak]
  refine dictGet_pairFold_of_mem _ _ _ _ ⟨(entityKey a, entityKey E.name), ?_, haek⟩ ?_
  · simp only [List.mem_flatMap, List.mem_map]
    exact ⟨E, hE, a, ha, rfl⟩
  · rintro p hp hpk
    simp only [List.mem_flatMap, List.mem_map] at hp
    obtain ⟨e', he', a', ha', rfl⟩ := hp
    have hk' : k ∈ entKeys e' := by
      have hc' : pyStrip a' = a' := hc e' he' a' ha'
      have hlk : pyLower a' = k := by
        rw [← hpk, entityKey, hc']
      exact List.mem_cons_of_mem _ (List.mem_map.mpr ⟨a', ha', hlk⟩)
    have hkE : k ∈ entKeys E :=
      List.mem_cons_of_mem _ (List.mem_map.mpr ⟨a, ha, hak⟩)
    have : e' = E := keysDisjoint_unique hd he' hE hk' hkE
    rw [this]

theorem buildMap_none_of_not_name {l : List Entity} (hd : KeysDisjoint l)
    {E : Entity} (hE : E ∈ l) {k : String} (hkE : k ∈ entKeys E)
    (hne : k ≠ entityKey E.name) : dictGet (buildMap l) k = none := by
  cases h : dictGet (buildMap l) k with
  | none => rfl
  | some F =>
    obtain ⟨hF, hFk⟩ := buildMap_sound h
    have hkF : k ∈ entKeys F := by
      rw [entKeys, ← hFk]
      simp
    have : F = E := keysDisjoint_unique hd hF hE hkF hkE
    rw [this] at hFk
    exact absurd hFk.symm hne

/-! ## The entities loop of `merge_passport_update` (C3) -/

/-- Invariant of the entities-loop state: unique name keys, the
`entity_map` is sound and complete for the entity list, every
`alias_index` owner is a live name key, and all aliases are trimmed. -/
def EntInv (st : EntFoldState) : Prop :=
  NamesUnique st.entities ∧
  (∀ k e, dictGet st.entityMap k = some e → e ∈ st.entities ∧ entityKey e.name = k) ∧
  (∀ e ∈ st.entities, dictGet st.entityMap (entityKey e.name) = some e) ∧
  (∀ k o, dictGet st.aliasIndex k = some o → ∃ e ∈ st.entities, entityKey e.name = o) ∧
  (∀ e ∈ st.entities, EntClean e)

/-- The key the entities loop resolves for an incoming entity. -/
def targetKey (st : EntFoldState) (inc : Entity) : Option String :=
  if (dictGet st.entityMap (entityKey inc.name)).isSome then some (entityKey inc.name)
  else if (dictGet st.aliasIndex (entityKey inc.name)).isSome then
    dictGet st.aliasIndex (entityKey inc.name)
  else aliasTarget st.entityMap st.aliasIndex inc.aliases

theorem entStep_eq (st : EntFoldState) (inc : Entity) :
    entStep st inc = match targetKey st inc with
      | none =>
        { entities := st.entities ++ [inc],
          entityMap := dictSet st.entityMap (entityKey inc.name) inc,
          aliasIndex := inc.aliases.foldl
            (fun ai a => dictSet ai (entityKey a) (entityKey inc.name)) st.aliasIndex,
          merged := st.merged + 1 }
      | some k =>
        { entities := setFirstByNameKey st.entities k
            (mergeEntity ((dictGet st.entityMap k).getD inc) inc),
          entityMap := dictSet st.entityMap k
            (mergeEntity ((dictGet st.entityMap k).getD inc) inc),
          aliasIndex := (mergeEntity ((dictGet st.entityMap k).getD inc) inc).aliases.foldl
            (fun ai a => dictSet ai (entityKey a) k) st.aliasIndex,
          merged := st.merged + 1 } := rfl

theorem entStep_none_eq {st : EntFoldState} {inc : Entity}
    (h : targetKey st inc = none) :
    entStep st inc =
      { entities := st.entities ++ [inc],
        entityMap := dictSet st.entityMap (entityKey inc.name) inc,
        aliasIndex := inc.aliases.foldl
          (fun ai a => dictSet ai (entityKey a) (entityKey inc.name)) st.aliasIndex,
        merged := st.merged + 1 } := by
  rw [entStep_eq, h]

theorem entStep_some_eq {st : EntFoldState} {inc : Entity} {k : String}
    (h : targetKey st inc = some k) :
    entStep st inc =
      { entities := setFirstByNameKey st.entities k
          (mergeEntity ((dictGet st.entityMap k).getD inc) inc),
        entityMap := dictSet st.entityMap k
          (mergeEntity ((dictGet st.entityMap k).getD inc) inc),
        aliasIndex := (mergeEntity ((dictGet st.entityMap k).getD inc) inc).aliases.foldl
          (fun ai a => dictSet ai (entityKey a) k) st.aliasIndex,
        merged := st.merged + 1 } := by
  rw [entStep_eq, h]

theorem targetKey_none_map {st : EntFoldState} {inc : Entity}
    (h : targetKey st inc = none) :
    dictGet st.entityMap (entityKey inc.name) = none := by
  unfold targetKey at h
  by_cases h1 : (dictGet st.entityMap (entityKey inc.name)).isSome = true
  · rw [if_pos h1] at h
    cases h
  · exact Option.not_isSome_iff_eq_none.mp h1

theorem aliasTarget_some :
    ∀ (as : List String) {m : List (String × Entity)} {ai : List (String × String)}
      {k : String}, aliasTarget m ai as = some k →
      (dictGet m k).isSome = true ∨ ∃ a : String, dictGet ai (entityKey a) = some k
  | [], _, _, _, h => by simp [aliasTarget] at h
  | a :: rest, m, ai, k, h => by
    simp only [aliasTarget] at h
    by_cases h1 : (dictGet m (entityKey a)).isSome = true
    · rw [if_pos h1] at h
      obtain rfl : entityKey a = k := by simpa using h
      exact Or.inl h1
    · rw [if_neg h1] at h
      cases h2 : dictGet ai (entityKey a) with
      | some owner =>
        rw [h2] at h
        obtain rfl : owner = k := by simpa using h
        exact Or.inr ⟨a, h2⟩
      | none =>
        rw [h2] at h
        exact aliasTarget_some rest h

theorem targetKey_some {st : EntFoldState} {inc : Entity} {k : String}
    (hcomp : ∀ e ∈ st.entities, dictGet st.entityMap (entityKey e.name) = some e)
    (haidx : ∀ k' o, dictGet st.aliasIndex k' = some o →
      ∃ e ∈ st.entities, entityKey e.name = o)
    (h : targetKey st inc = some k) :
    ∃ t, dictGet st.entityMap k = some t := by
  unfold targetKey at h
  by_cases h1 : (dictGet st.entityMap (entityKey inc.name)).isSome = true
  · rw [if_pos h1] at h
    obtain rfl : entityKey inc.name = k := by simpa using h
    exact Option.isSome_iff_exists.mp h1
  · rw [if_neg h1] at h
    by_cases h2 : (dictGet st.aliasIndex (entityKey inc.name)).isSome = true
    · rw [if_pos h2] at h
      obtain ⟨e, he, hek⟩ := haidx _ k h
      exact ⟨e, by rw [← hek]; exact hcomp e he⟩
    · rw [if_neg h2] at h
      rcases aliasTarget_some inc.aliases h with hs | ⟨a, hai⟩
      · exact Option.isSome_iff_exists.mp hs
      · obtain ⟨e, he, hek⟩ := haidx _ k hai
        exact ⟨e, by rw [← hek]; exact hcomp e he⟩

theorem aliasWrite_pairFold (as : List String) (k : String)
    (ai : List (String × String)) :
    as.foldl (fun ai a => dictSet ai (entityKey a) k) ai =
    pairFold (as.map (fun a => (entityKey a, k))) ai := by
  rw [pairFold, List.foldl_map]

theorem setFirst_set {l : List Entity} {k : String} (hu : NamesUnique l) {t : Entity}
    (ht : t ∈ l) (htk : entityKey t.name = k) (e : Entity) :
    ∃ i : Nat, ∃ hi : i < l.length, l[i] = t ∧ setFirstByNameKey l k e = l.set i e := by
  have hpt : (entityKey t.name == k) = true := by simp [htk]
  cases hfind : l.findIdx? (fun x => entityKey x.name == k) with
  | none =>
    have := List.findIdx?_eq_none_iff.mp hfind t ht
    rw [hpt] at this
    exact absurd this (by simp)
  | some i =>
    obtain ⟨hlt, hp, -⟩ := List.findIdx?_eq_some_iff_getElem.mp hfind
    have hik : entityKey ((l[i]).name) = k := by simpa using hp
    have hit : l[i] = t :=
      eq_of_mem_of_keyUnique hu (List.getElem_mem hlt) ht (by rw [hik, htk])
    refine ⟨i, hlt, hit, ?_⟩
    unfold setFirstByNameKey
    rw [hfind]

theorem entStep_inv_none {st : EntFoldState} {inc : Entity} (hinv : EntInv st)
    (hclean : EntClean inc) (htk : targetKey st inc = none) :
    EntInv (entStep st inc) ∧
    (∃ E ∈ (entStep st inc).entities, Covers E inc) ∧
    (∀ g E, E ∈ st.entities → Covers E g →
      ∃ E' ∈ (entStep st inc).entities, Covers E' g) := by
  obtain ⟨hu, hsound, hcomp, haidx, hcl⟩ := hinv
  have hmiss : dictGet st.entityMap (entityKey inc.name) = none := targetKey_none_map htk
  have hnotin : ∀ e ∈ st.entities, entityKey e.name ≠ entityKey inc.name := by
    intro e he heq
    have h := hcomp e he
    rw [heq, hmiss] at h
    cases h
  rw [entStep_none_eq htk]
  refine ⟨⟨?_, ?_, ?_, ?_, ?_⟩, ?_, ?_⟩
  · rw [NamesUnique, List.pairwise_append]
    refine ⟨hu, by simp, ?_⟩
    intro a ha b hb
    rw [List.mem_singleton.mp hb]
    exact hnotin a ha
  · intro k e h
    rw [dictGet_dictSet] at h
    by_cases hk : entityKey inc.name = k
    · rw [if_pos hk] at h
      obtain rfl : inc = e := by simpa using h
      exact ⟨by simp, hk⟩
    · rw [if_neg hk] at h
      obtain ⟨hm, hke⟩ := hsound k e h
      exact ⟨by simp [hm], hke⟩
  · intro e he
    rcases List.mem_append.mp he with he' | he'
    · rw [dictGet_dictSet, if_neg (fun h => hnotin e he' h.symm)]
      exact hcomp e he'
    · rw [List.mem_singleton.mp he']
      rw [dictGet_dictSet, if_pos rfl]
  · intro k o h
    rw [aliasWrite_pairFold] at h
    rcases dictGet_pairFold_some _ _ _ _ h with ⟨p, hp, -, hv⟩ | h'
    · simp only [List.mem_map] at hp
      obtain ⟨a, -, rfl⟩ := hp
      exact ⟨inc, by simp, hv⟩
    · obtain ⟨e, he, hek⟩ := haidx k o h'
      exact ⟨e, by simp [he], hek⟩
  · intro e he
    rcases List.mem_append.mp he with he' | he'
    · exact hcl e he'
    · rw [List.mem_singleton.mp he']
      exact hclean
  · refine ⟨inc, by simp, Or.inl rfl, ?_, fun h => h⟩
    intro a ha hs
    rw [hclean a ha]
    exact List.mem_map_of_mem pyLower ha
  · intro g E hE hcov
    exact ⟨E, by simp [hE], hcov⟩

theorem entStep_inv_some {st : EntFoldState} {inc : Entity} {k : String}
    (hinv : EntInv st) (hclean : EntClean inc) (hname : entityKey inc.name ≠ "")
    (htk : targetKey st inc = some k) :
    EntInv (entStep st inc) ∧
    (∃ E ∈ (entStep st inc).entities, Covers E inc) ∧
    (∀ g E, E ∈ st.entities → Covers E g →
      ∃ E' ∈ (entStep st inc).entities, Covers E' g) := by
  obtain ⟨hu, hsound, hcomp, haidx, hcl⟩ := hinv
  obtain ⟨t, hmt⟩ := targetKey_some hcomp haidx htk
  obtain ⟨htm, htkey⟩ := hsound k t hmt
  have hgetD : (dictGet st.entityMap k).getD inc = t := by
    rw [hmt]
    rfl
  rw [entStep_some_eq htk, hgetD]
  obtain ⟨i, hi, hit, hset⟩ := setFirst_set hu htm htkey (mergeEntity t inc)
  rw [hset]
  have hnameeq : entityKey ((mergeEntity t inc).name) = k := by
    rw [mergeEntity_name]
    exact htkey
  have hget? : st.entities.get? i = some t := by
    rw [List.get?_eq_getElem?, List.getElem?_eq_getElem hi, hit]
  have hmem_merged : mergeEntity t inc ∈ st.entities.set i (mergeEntity t inc) :=
    List.mem_set st.entities i hi (mergeEntity t inc)
  have hkey_ne : ∀ (j : Nat) (hj : j < st.entities.length), j ≠ i →
      entityKey (((st.entities)[j]).name) ≠ k := by
    intro j hj hji heq
    have hup := hu
    rw [NamesUnique, List.pairwise_iff_getElem] at hup
    have hik : entityKey (((st.entities)[i]).name) = k := by
      rw [hit, htkey]
    rcases Nat.lt_trichotomy j i with hlt | rfl | hlt
    · exact hup j i hj hi hlt (by rw [heq, hik])
    · exact hji rfl
    · exact hup i j hi hj hlt (by rw [heq, hik])
  refine ⟨⟨?_, ?_, ?_, ?_, ?_⟩, ?_, ?_⟩
  · exact pairwise_ne_set hu hget? (by rw [mergeEntity_name])
  · intro k' e h
    rw [dictGet_dictSet] at h
    by_cases hk : k = k'
    · rw [if_pos hk] at h
      obtain rfl : mergeEntity t inc = e := by simpa using h
      exact ⟨hmem_merged, by rw [hnameeq, hk]⟩
    · rw [if_neg hk] at h
      obtain ⟨hm, hke⟩ := hsound k' e h
      rcases mem_set_or i hm with hm' | hm'
      · exact ⟨hm', hke⟩
      · rw [List.getElem?_eq_getElem hi] at hm'
        have het : t = e := by
          rw [← hit]
          simpa using hm'
        rw [← het] at hke
        rw [htkey] at hke
        exact absurd hke hk
  · intro e he
    rw [List.mem_iff_getElem] at he
    obtain ⟨j, hj, hje⟩ := he
    have hjlen : j < st.entities.length := by simpa using hj
    by_cases hji : j = i
    · subst hji
      have : e = mergeEntity t inc := by
        rw [← hje, List.getElem_set_self]
      subst this
      rw [hnameeq, dictGet_dictSet, if_pos rfl]
    · have hje' : e = (st.entities)[j] := by
        rw [← hje, List.getElem_set_ne (fun h => hji h.symm)]
      have hmem_old : e ∈ st.entities := by
        rw [hje']
        exact List.getElem_mem hjlen
      have hne : entityKey e.name ≠ k := by
        rw [hje']
        exact hkey_ne j hjlen hji
      rw [dictGet_dictSet, if_neg (fun h => hne h.symm)]
      exact hcomp e hmem_old
  · intro k' o h
    rw [aliasWrite_pairFold] at h
    rcases dictGet_pairFold_some _ _ _ _ h with ⟨p, hp, -, hv⟩ | h'
    · simp only [List.mem_map] at hp
      obtain ⟨a, -, rfl⟩ := hp
      refine ⟨mergeEntity t inc, hmem_merged, ?_⟩
      rw [hnameeq]
      exact hv
    · obtain ⟨e, he, hek⟩ := haidx k' o h'
      rcases mem_set_or i he with he' | he'
      · exact ⟨e, he', hek⟩
      · rw [List.getElem?_eq_getElem hi] at he'
        have het : t = e := by
          rw [← hit]
          simpa using he'
        refine ⟨mergeEntity t inc, hmem_merged, ?_⟩
        rw [hnameeq, ← hek, ← het, htkey]
  · intro e he
    rcases List.mem_or_eq_of_mem_set he with he' | rfl
    · exact hcl e he'
    · exact mergeEntity_clean inc (hcl t htm)
  · exact ⟨mergeEntity t inc, hmem_merged, covers_mergeEntity_self t inc hname⟩
  · intro g E hE hcov
    rcases mem_set_or i hE with hE' | hE'
    · exact ⟨E, hE', hcov⟩
    · rw [List.getElem?_eq_getElem hi] at hE'
      have het : t = E := by
        rw [← hit]
        simpa using hE'
      refine ⟨mergeEntity t inc, hmem_merged, ?_⟩
      rw [het]
      exact covers_mergeEntity hcov

theorem entStep_inv {st : EntFoldState} {inc : Entity} (hinv : EntInv st)
    (hclean : EntClean inc) (hname : entityKey inc.name ≠ "") :
    EntInv (entStep st inc) ∧
    (∃ E ∈ (entStep st inc).entities, Covers E inc) ∧
    (∀ g E, E ∈ st.entities → Covers E g →
      ∃ E' ∈ (entStep st inc).entities, Covers E' g) := by
  cases htk : targetKey st inc with
  | none => exact entStep_inv_none hinv hclean htk
  | some k => exact entStep_inv_some hinv hclean hname htk

theorem entFold_inv :
    ∀ (incs : List Entity) (st : EntFoldState), EntInv st →
      (∀ i ∈ incs, EntClean i ∧ entityKey i.name ≠ "") →
      EntInv (incs.foldl entStep st) ∧
      (∀ i ∈ incs, ∃ E ∈ (incs.foldl entStep st).entities, Covers E i) ∧
      (∀ g E, E ∈ st.entities → Covers E g →
        ∃ E' ∈ (incs.foldl entStep st).entities, Covers E' g)
  | [], st, hinv, _ => ⟨hinv, by simp, fun g E hE hcov => ⟨E, hE, hcov⟩⟩
  | i :: incs, st, hinv, h => by
    rw [List.foldl_cons]
    obtain ⟨hinv', hcov1, hpres1⟩ :=
      entStep_inv hinv (h i (by simp)).1 (h i (by simp)).2
    obtain ⟨hinvf, hcovf, hpresf⟩ :=
      entFold_inv incs (entStep st i) hinv' (fun x hx => h x (by simp [hx]))
    refine ⟨hinvf, ?_, ?_⟩
    · intro x hx
      rcases List.mem_cons.mp hx with rfl | hx'
      · obtain ⟨E, hE, hcov⟩ := hcov1
        exact hpresf x E hE hcov
      · exact hcovf x hx'
    · intro g E hE hcov
      obtain ⟨E', hE', hcov'⟩ := hpres1 g E hE hcov
      exact hpresf g E' hE' hcov'

theorem foldWrite_same :
    ∀ (as : List String) (k : String) (ai : List (String × String)),
      (∀ a ∈ as, dictGet ai (entityKey a) = some k) →
      as.foldl (fun ai a => dictSet ai (entityKey a) k) ai = ai
  | [], _, _, _ => rfl
  | a :: as, k, ai, h => by
    rw [List.foldl_cons, dictSet_same (h a (by simp))]
    exact foldWrite_same as k ai (fun x hx => h x (by simp [hx]))

/-- Re-merging an entity that some passport entity already absorbs
changes nothing: the entities loop resolves the absorbing entity and
`_merge_entity` returns it unchanged. -/
theorem entStep_noop {ents : List Entity} {inc : Entity}
    (hd : KeysDisjoint ents) (hc : ∀ e ∈ ents, EntClean e)
    (hE : ∃ E ∈ ents, Covers E inc) (hname : entityKey inc.name ≠ "") (n : Nat) :
    entStep ⟨ents, buildMap ents, buildAidx ents, n⟩ inc =
      ⟨ents, buildMap ents, buildAidx ents, n + 1⟩ := by
  obtain ⟨E, hEm, hcov⟩ := hE
  have hu : NamesUnique ents := namesUnique_of_keysDisjoint hd
  have hcompE : dictGet (buildMap ents) (entityKey E.name) = some E :=
    buildMap_complete hu hEm
  have htk : targetKey ⟨ents, buildMap ents, buildAidx ents, n⟩ inc =
      some (entityKey E.name) := by
    unfold targetKey
    by_cases hms : (dictGet (buildMap ents) (entityKey inc.name)).isSome = true
    · rw [if_pos hms]
      obtain ⟨F, hF⟩ := Option.isSome_iff_exists.mp hms
      obtain ⟨hFm, hFk⟩ := buildMap_sound hF
      have hkF : entityKey inc.name ∈ entKeys F := by
        rw [entKeys, ← hFk]
        simp
      have hkE : entityKey inc.name ∈ entKeys E := by
        rw [entKeys]
        rcases hcov.1 with h1 | h1
        · rw [h1]
          simp
        · exact List.mem_cons_of_mem _ h1
      have : F = E := keysDisjoint_unique hd hFm hEm hkF hkE
      rw [this] at hFk
      rw [hFk]
    · rw [if_neg hms]
      have h1 : entityKey inc.name ∈ E.aliases.map pyLower := by
        rcases hcov.1 with h1 | h1
        · exfalso
          apply hms
          have hsome : dictGet (buildMap ents) (entityKey inc.name) = some E := by
            rw [h1]
            exact hcompE
          rw [hsome]
          rfl
        · exact h1
      have hai : dictGet (buildAidx ents) (entityKey inc.name) =
          some (entityKey E.name) := buildAidx_get_mem hd hc hEm h1
      rw [if_pos (by rw [hai]; rfl)]
      exact hai
  rw [entStep_some_eq htk]
  have hgetD : (dictGet (buildMap ents) (entityKey E.name)).getD inc = E := by
    rw [hcompE]
    rfl
  rw [hgetD, mergeEntity_self_of_covers hcov hname]
  obtain ⟨i, hi, hit, hset⟩ := setFirst_set hu hEm rfl E
  rw [hset, list_set_self ents i E (by rw [List.getElem?_eq_getElem hi, hit])]
  rw [dictSet_same hcompE]
  rw [foldWrite_same E.aliases (entityKey E.name) (buildAidx ents) ?_]
  · intro a ha
    have hclean : pyStrip a = a := hc E hEm a ha
    refine buildAidx_get_mem hd hc hEm ?_
    rw [entityKey, hclean]
    exact List.mem_map_of_mem pyLower ha

theorem entFold_noop :
    ∀ (incs : List Entity) (ents : List Entity) (n : Nat),
      KeysDisjoint ents → (∀ e ∈ ents, EntClean e) →
      (∀ i ∈ incs, (∃ E ∈ ents, Covers E i) ∧ entityKey i.name ≠ "") →
      (incs.foldl entStep ⟨ents, buildMap ents, buildAidx ents, n⟩).entities = ents
  | [], _, _, _, _, _ => rfl
  | i :: incs, ents, n, hd, hc, h => by
    rw [List.foldl_cons, entStep_noop hd hc (h i (by simp)).1 (h i (by simp)).2 n]
    exact entFold_noop incs ents (n + 1) hd hc (fun x hx => h x (by simp [hx]))

/-! ## Assembling `merge_passport_update` idempotence (C3) -/

theorem mpu_facts (base : Passport) (f p : List KV) (e : List Entity)
    (o : List OpenLoop) (now : DT) :
    (mergePassportUpdate base f p e o now).1.facts =
      pySort kvLe ((f.foldl kvStep ⟨base.facts, base.contradictions, 0, 0⟩).items) := rfl

theorem mpu_prefs (base : Passport) (f p : List KV) (e : List Entity)
    (o : List OpenLoop) (now : DT) :
    (mergePassportUpdate base f p e o now).1.prefs =
      pySort kvLe ((p.foldl kvStep
        ⟨base.prefs,
          (f.foldl kvStep ⟨base.facts, base.contradictions, 0, 0⟩).contradictions,
          0, 0⟩).items) := rfl

theorem mpu_entities (base : Passport) (f p : List KV) (e : List Entity)
    (o : List OpenLoop) (now : DT) :
    (mergePassportUpdate base f p e o now).1.entities =
      pySort entLe ((e.foldl entStep
        ⟨base.entities, buildMap base.entities, buildAidx base.entities, 0⟩).entities) :=
  rfl

theorem mpu_loops (base : Passport) (f p : List KV) (e : List Entity)
    (o : List OpenLoop) (now : DT) :
    (mergePassportUpdate base f p e o now).1.open_loops =
      pySort loopLe ((o.foldl loopStep (base.open_loops, 0)).1) := rfl

theorem mpu_contradictions (base : Passport) (f p : List KV) (e : List Entity)
    (o : List OpenLoop) (now : DT) :
    (mergePassportUpdate base f p e o now).1.contradictions =
      pySort contraLe ((p.foldl kvStep
        ⟨base.prefs,
          (f.foldl kvStep ⟨base.facts, base.contradictions, 0, 0⟩).contradictions,
          0, 0⟩).contradictions) := rfl

theorem mpu_stats_contras (base : Passport) (f p : List KV) (e : List Entity)
    (o : List OpenLoop) (now : DT) :
    (mergePassportUpdate base f p e o now).2.contradictions_added =
      (f.foldl kvStep ⟨base.facts, base.contradictions, 0, 0⟩).contras +
      (p.foldl kvStep
        ⟨base.prefs,
          (f.foldl kvStep ⟨base.facts, base.contradictions, 0, 0⟩).contradictions,
          0, 0⟩).contras := rfl

theorem passport_ext {p q : Passport} (h1 : p.version = q.version)
    (h2 : p.updated_at = q.updated_at) (h3 : p.user_key = q.user_key)
    (h4 : p.facts = q.facts) (h5 : p.prefs = q.prefs) (h6 : p.entities = q.entities)
    (h7 : p.open_loops = q.open_loops) (h8 : p.contradictions = q.contradictions)
    (h9 : p.sources = q.sources) (h10 : p.meta = q.meta) : p = q := by
  cases p
  cases q
  simp only [Passport.mk.injEq]
  exact ⟨h1, h2, h3, h4, h5, h6, h7, h8, h9, h10⟩

theorem goodIn_of_perm {l l' : List KV} (hp : l.Perm l') {f : KV}
    (h : GoodIn l f) : GoodIn l' f := by
  obtain ⟨e, he, h1, h2, h3, h4⟩ := h
  exact ⟨e, hp.mem_iff.mp he, h1, h2, h3, h4⟩

theorem loopGood_of_perm {l l' : List OpenLoop} (hp : l.Perm l') {o : OpenLoop}
    (h : LoopGood l o) : LoopGood l' o := by
  rcases h with h | ⟨e, he, h1, h2⟩
  · exact Or.inl h
  · exact Or.inr ⟨e, hp.mem_iff.mp he, h1, h2⟩

/-- **C3 (amended).**  Merge idempotence holds conditionally, not
universally: for a base passport whose facts and prefs have unique
normalized keys and whose entities have distinct name keys and trimmed
aliases, an update whose entities have trimmed aliases and non-empty
trimmed names, and a first merge that records no contradiction and
leaves no key claimed by two entities, merging the same update a second
time returns the same passport (except `updated_at`) and records zero
contradictions. -/
theorem mergePassportUpdate_idempotent_conditional
    (base : Passport) (facts prefs : List KV) (entities : List Entity)
    (openLoops : List OpenLoop) (now1 now2 : DT)
    (hbf : NormKeyUnique base.facts) (hbp : NormKeyUnique base.prefs)
    (hbe : NamesUnique base.entities)
    (hbc : ∀ e ∈ base.entities, EntClean e)
    (hinc : ∀ i ∈ entities, EntClean i ∧ entityKey i.name ≠ "")
    (hnc : (mergePassportUpdate base facts prefs entities openLoops
      now1).2.contradictions_added = 0)
    (hdisj : KeysDisjoint (mergePassportUpdate base facts prefs entities openLoops
      now1).1.entities) :
    (mergePassportUpdate (mergePassportUpdate base facts prefs entities openLoops now1).1
        facts prefs entities openLoops now2).1 =
      { (mergePassportUpdate base facts prefs entities openLoops now1).1 with
          updated_at := now2 } ∧
    (mergePassportUpdate (mergePassportUpdate base facts prefs entities openLoops now1).1
        facts prefs entities openLoops now2).2.contradictions_added = 0 := by
  rw [mpu_stats_contras base facts prefs entities openLoops now1] at hnc
  have hF1c : (facts.foldl kvStep ⟨base.facts, base.contradictions, 0, 0⟩).contras = 0 := by
    omega
  have hP1c : (prefs.foldl kvStep
      ⟨base.prefs,
        (facts.foldl kvStep ⟨base.facts, base.contradictions, 0, 0⟩).contradictions,
        0, 0⟩).contras = 0 := by
    omega
  have hgoodF := (kvFold_good facts ⟨base.facts, base.contradictions, 0, 0⟩ hF1c).1
  have huniqF : NormKeyUnique
      (facts.foldl kvStep ⟨base.facts, base.contradictions, 0, 0⟩).items :=
    kvFold_unique facts _ hbf
  have hgoodP := (kvFold_good prefs
    ⟨base.prefs,
      (facts.foldl kvStep ⟨base.facts, base.contradictions, 0, 0⟩).contradictions,
      0, 0⟩ hP1c).1
  have huniqP : NormKeyUnique (prefs.foldl kvStep
      ⟨base.prefs,
        (facts.foldl kvStep ⟨base.facts, base.contradictions, 0, 0⟩).contradictions,
        0, 0⟩).items :=
    kvFold_unique prefs _ hbp
  have hM1f := mpu_facts base facts prefs entities openLoops now1
  have hM1p := mpu_prefs base facts prefs entities openLoops now1
  have hM1e := mpu_entities base facts prefs entities openLoops now1
  have hM1l := mpu_loops base facts prefs entities openLoops now1
  have hM1c := mpu_contradictions base facts prefs entities openLoops now1
  have hgoodF2 : ∀ f ∈ facts, GoodIn
      (mergePassportUpdate base facts prefs entities openLoops now1).1.facts f := by
    intro f hf
    rw [hM1f]
    exact goodIn_of_perm (pySort_perm kvLe _).symm (hgoodF f hf)
  have huniqF2 : NormKeyUnique
      (mergePassportUpdate base facts prefs entities openLoops now1).1.facts := by
    rw [hM1f]
    exact normKeyUnique_perm (pySort_perm kvLe _).symm huniqF
  have hF2 := kvFold_noop facts
    ⟨(mergePassportUpdate base facts prefs entities openLoops now1).1.facts,
      (mergePassportUpdate base facts prefs entities openLoops now1).1.contradictions,
      0, 0⟩ huniqF2 hgoodF2
  have hgoodP2 : ∀ f ∈ prefs, GoodIn
      (mergePassportUpdate base facts prefs entities openLoops now1).1.prefs f := by
    intro f hf
    rw [hM1p]
    exact goodIn_of_perm (pySort_perm kvLe _).symm (hgoodP f hf)
  have huniqP2 : NormKeyUnique
      (mergePassportUpdate base facts prefs entities openLoops now1).1.prefs := by
    rw [hM1p]
    exact normKeyUnique_perm (pySort_perm kvLe _).symm huniqP
  have hP2 := kvFold_noop prefs
    ⟨(mergePassportUpdate base facts prefs entities openLoops now1).1.prefs,
      (mergePassportUpdate base facts prefs entities openLoops now1).1.contradictions,
      0, 0⟩ huniqP2 hgoodP2
  have hEinv0 : EntInv ⟨base.entities, buildMap base.entities, buildAidx base.entities, 0⟩ :=
    ⟨hbe, fun _ _ h => buildMap_sound h, fun _ he => buildMap_complete hbe he,
      fun _ _ h => buildAidx_values h, hbc⟩
  obtain ⟨hEinv1, hcovE1, -⟩ := entFold_inv entities _ hEinv0 hinc
  have hcl1 : ∀ e ∈ (mergePassportUpdate base facts prefs entities openLoops
      now1).1.entities, EntClean e := by
    intro e he
    rw [hM1e] at he
    exact hEinv1.2.2.2.2 e (mem_pySort.mp he)
  have hcov1 : ∀ i ∈ entities,
      (∃ E ∈ (mergePassportUpdate base facts prefs entities openLoops now1).1.entities,
        Covers E i) ∧ entityKey i.name ≠ "" := by
    intro i hi
    refine ⟨?_, (hinc i hi).2⟩
    obtain ⟨E, hEm, hcov⟩ := hcovE1 i hi
    refine ⟨E, ?_, hcov⟩
    rw [hM1e]
    exact mem_pySort.mpr hEm
  have hE2 := entFold_noop entities
    (mergePassportUpdate base facts prefs entities openLoops now1).1.entities 0
    hdisj hcl1 hcov1
  have hgoodL := (loopFold_good openLoops (base.open_loops, 0)).1
  have hsort1 : (mergePassportUpdate base facts prefs entities openLoops
      now1).1.open_loops.Pairwise (fun a b => loopLe a b = true) := by
    rw [hM1l]
    exact pySort_pairwise loopLe_trans loopLe_total _
  have hgoodL2 : ∀ o ∈ openLoops, LoopGood
      (mergePassportUpdate base facts prefs entities openLoops now1).1.open_loops o := by
    intro o ho
    rw [hM1l]
    exact loopGood_of_perm (pySort_perm loopLe _).symm (hgoodL o ho)
  have hL2 := loopFold_noop openLoops
    (mergePassportUpdate base facts prefs entities openLoops now1).1.open_loops 0
    hsort1 hgoodL2
  have hfeq : (mergePassportUpdate
      (mergePassportUpdate base facts prefs entities openLoops now1).1
      facts prefs entities openLoops now2).1.facts =
      (mergePassportUpdate base facts prefs entities openLoops now1).1.facts := by
    rw [mpu_facts, hF2]
    show pySort kvLe
      (mergePassportUpdate base facts prefs entities openLoops now1).1.facts =
      (mergePassportUpdate base facts prefs entities openLoops now1).1.facts
    rw [hM1f]
    exact pySort_of_sorted (pySort_pairwise kvLe_trans kvLe_total _)
  have hpeq : (mergePassportUpdate
      (mergePassportUpdate base facts prefs entities openLoops now1).1
      facts prefs entities openLoops now2).1.prefs =
      (mergePassportUpdate base facts prefs entities openLoops now1).1.prefs := by
    rw [mpu_prefs, hF2]
    show pySort kvLe
      ((prefs.foldl kvStep
        ⟨(mergePassportUpdate base facts prefs entities openLoops now1).1.prefs,
          (mergePassportUpdate base facts prefs entities openLoops now1).1.contradictions,
          0, 0⟩).items) =
      (mergePassportUpdate base facts prefs entities openLoops now1).1.prefs
    rw [hP2]
    show pySort kvLe
      (mergePassportUpdate base facts prefs entities openLoops now1).1.prefs =
      (mergePassportUpdate base facts prefs entities openLoops now1).1.prefs
    rw [hM1p]
    exact pySort_of_sorted (pySort_pairwise kvLe_trans kvLe_total _)
  have heeq : (mergePassportUpdate
      (mergePassportUpdate base facts prefs entities openLoops now1).1
      facts prefs entities openLoops now2).1.entities =
      (mergePassportUpdate base facts prefs entities openLoops now1).1.entities := by
    rw [mpu_entities, hE2]
    rw [hM1e]
    exact pySort_of_sorted (pySort_pairwise entLe_trans entLe_total _)
  have hleq : (mergePassportUpdate
      (mergePassportUpdate base facts prefs entities openLoops now1).1
      facts prefs entities openLoops now2).1.open_loops =
      (mergePassportUpdate base facts prefs entities openLoops now1).1.open_loops := by
    rw [mpu_loops, hL2]
    show pySort loopLe
      (mergePassportUpdate base facts prefs entities openLoops now1).1.open_loops =
      (mergePassportUpdate base facts prefs entities openLoops now1).1.open_loops
    exact pySort_of_sorted hsort1
  have hceq : (mergePassportUpdate
      (mergePassportUpdate base facts prefs entities openLoops now1).1
      facts prefs entities openLoops now2).1.contradictions =
      (mergePassportUpdate base facts prefs entities openLoops now1).1.contradictions := by
    rw [mpu_contradictions, hF2]
    show pySort contraLe
      ((prefs.foldl kvStep
        ⟨(mergePassportUpdate base facts prefs entities openLoops now1).1.prefs,
          (mergePassportUpdate base facts prefs entities openLoops now1).1.contradictions,
          0, 0⟩).contradictions) =
      (mergePassportUpdate base facts prefs entities openLoops now1).1.contradictions
    rw [hP2]
    show pySort contraLe
      (mergePassportUpdate base facts prefs entities openLoops now1).1.contradictions =
      (mergePassportUpdate base facts prefs entities openLoops now1).1.contradictions
    rw [hM1c]
    exact pySort_of_sorted (pySort_pairwise contraLe_trans contraLe_total _)
  have hstats : (mergePassportUpdate
      (mergePassportUpdate base facts prefs entities openLoops now1).1
      facts prefs entities openLoops now2).2.contradictions_added = 0 := by
    rw [mpu_stats_contras, hF2]
    show 0 + (prefs.foldl kvStep
      ⟨(mergePassportUpdate base facts prefs entities openLoops now1).1.prefs,
        (mergePassportUpdate base facts prefs entities openLoops now1).1.contradictions,
        0, 0⟩).contras = 0
    rw [hP2]
    rfl
  exact ⟨passport_ext rfl rfl rfl hfeq hpeq heeq hleq hceq rfl rfl, hstats⟩

/-- Base passport of the C3 counterexample: one stored fact. -/
def c3BaseW : Passport := { emptyPassportW with facts := [curW] }

/-- Witness entity for the C3 amended theorem. -/
def c3EntW : Entity := { name := "Ada", type := "person", aliases := ["Lovelace"] }

/-- Witness open loop for the C3 amended theorem. -/
def c3LoopW : OpenLoop :=
  { item := "review PR", ts := ⟨mkRat 2 1, "2026-02-02T10:00:00+00:00"⟩, source := "t1" }

/-- **C3 counterexample.**  Merging the same update twice is not the
same as merging it once: an incoming fact that is older than the stored
conflicting value is re-reported on every merge, so the once-merged
passport carries one contradiction, the twice-merged passport carries
two, and the second merge reports `contradictions_added = 1`, not 0. -/
theorem mergePassportUpdate_not_idempotent :
    (mergePassportUpdate c3BaseW [incOldW] [] [] []
      ⟨mkRat 4 1, "2026-02-04T00:00:00+00:00"⟩).1.contradictions.length = 1 ∧
    (mergePassportUpdate
      (mergePassportUpdate c3BaseW [incOldW] [] [] []
        ⟨mkRat 4 1, "2026-02-04T00:00:00+00:00"⟩).1
      [incOldW] [] [] []
      ⟨mkRat 5 1, "2026-02-05T00:00:00+00:00"⟩).1.contradictions.length = 2 ∧
    (mergePassportUpdate
      (mergePassportUpdate c3BaseW [incOldW] [] [] []
        ⟨mkRat 4 1, "2026-02-04T00:00:00+00:00"⟩).1
      [incOldW] [] [] []
      ⟨mkRat 5 1, "2026-02-05T00:00:00+00:00"⟩).2.contradictions_added = 1 := by
  refine ⟨?_, ?_, ?_⟩ <;> decide

theorem mergePassportUpdate_idempotent_conditional_witness :
    (mergePassportUpdate
      (mergePassportUpdate emptyPassportW [curW] [] [c3EntW] [c3LoopW]
        ⟨mkRat 4 1, "2026-02-04T00:00:00+00:00"⟩).1
      [curW] [] [c3EntW] [c3LoopW]
      ⟨mkRat 5 1, "2026-02-05T00:00:00+00:00"⟩).1 =
      { (mergePassportUpdate emptyPassportW [curW] [] [c3EntW] [c3LoopW]
          ⟨mkRat 4 1, "2026-02-04T00:00:00+00:00"⟩).1 with
          updated_at := ⟨mkRat 5 1, "2026-02-05T00:00:00+00:00"⟩ } ∧
    (mergePassportUpdate
      (mergePassportUpdate emptyPassportW [curW] [] [c3EntW] [c3LoopW]
        ⟨mkRat 4 1, "2026-02-04T00:00:00+00:00"⟩).1
      [curW] [] [c3EntW] [c3LoopW]
      ⟨mkRat 5 1, "2026-02-05T00:00:00+00:00"⟩).2.contradictions_added = 0 :=
  mergePassportUpdate_idempotent_conditional emptyPassportW [curW] [] [c3EntW] [c3LoopW]
    ⟨mkRat 4 1, "2026-02-04T00:00:00+00:00"⟩ ⟨mkRat 5 1, "2026-02-05T00:00:00+00:00"⟩
    (by simp [NormKeyUnique, emptyPassportW])
    (by simp [NormKeyUnique, emptyPassportW])
    (by simp [NamesUnique, emptyPassportW])
    (by simp [emptyPassportW])
    (by
      intro i hi
      rw [List.mem_singleton] at hi
      subst hi
      refine ⟨?_, by decide⟩
      intro a ha
      rw [List.mem_singleton.mp ha]
      decide)
    (by decide)
    (by unfold KeysDisjoint; decide)

end Sozo
